import Mathlib

/-!
# codereadr: request encoding and response decoding of `Client.Do`

A shallow embedding of `src/codereadr.go`.

* The request half of `Client.Do` (lines 63-80) is embedded as `Do_encode`: the parts the
  calls on the `multipart.Writer` put into the request body, each with the names its
  `Content-Disposition` header carries and with its content.
* The response half (lines 95-108) is embedded as `Do_decode`, over the XML document the
  response bytes denote.
* `DateTime.UnmarshalXML` (lines 188-199) is embedded as `DateTime.parse`, on top of an
  embedding of the part of Go's `time.Parse` that the layout `"2006-01-02 15:04:05"` exercises.

Go strings are byte strings; they are represented here by Lean strings (the valid UTF-8 ones)
and inspected character by character.  Every byte test made by the embedded code is a test
against an ASCII byte, so it agrees with the same test on characters.
-/

namespace Codereadr

/-! ## Request encoding -/

/-- One part of the `multipart/form-data` body, as `mime/multipart.Writer` writes it: a scalar
form field or a form file. `name`, `fieldname` and `filename` are the texts that stand between
the quotes of the `name` and `filename` parameters of the part's `Content-Disposition` header;
`value` and `content` are the bytes of the part's body. -/
inductive Part where
  | field (name value : String)
  | file (fieldname filename content : String)
  deriving DecidableEq, Repr

/-- Whether a part is a file part. -/
def Part.isFile : Part → Bool
  | Part.field _ _ => false
  | Part.file _ _ _ => true

/-- State of a `multipart.Writer` over a `bytes.Buffer`: the parts written so far, in order.
Writing to a `bytes.Buffer` cannot fail, so neither can the writer's methods. -/
structure Writer where
  parts : List Part
  deriving DecidableEq, Repr

/-- `multipart.NewWriter(reqBody)` on a fresh buffer. -/
def NewWriter : Writer := ⟨[]⟩

/-- Whether `quoteEscaper` of `mime/multipart` replaces the character: a backslash (92), a
double quote (34), a carriage return (13) or a line feed (10). -/
def needsEscape (c : Char) : Bool :=
  c = Char.ofNat 92 || c = Char.ofNat 34 || c = Char.ofNat 13 || c = Char.ofNat 10

/-- What `quoteEscaper` of `mime/multipart` writes for one character: a backslash and a double
quote get a backslash in front, a carriage return becomes `%0D` and a line feed `%0A`; every
other character stands for itself. -/
def escapeChar (c : Char) : List Char :=
  if c = Char.ofNat 92 then [Char.ofNat 92, Char.ofNat 92]
  else if c = Char.ofNat 34 then [Char.ofNat 92, Char.ofNat 34]
  else if c = Char.ofNat 13 then ['%', '0', 'D']
  else if c = Char.ofNat 10 then ['%', '0', 'A']
  else [c]

/-- The replacer `quoteEscaper` run over a string, left to right. -/
def escapeChars : List Char → List Char
  | [] => []
  | c :: cs => escapeChar c ++ escapeChars cs

/-- `escapeQuotes(s)` of `mime/multipart`: the text put between the quotes of a parameter of
the `Content-Disposition` header for the name `s`. -/
def escapeQuotes (s : String) : String :=
  String.mk (escapeChars s.data)

/-- `(*multipart.Writer).WriteField(name, value)`: appends one scalar field, its header
`form-data; name="..."` carrying `escapeQuotes(name)`, its body `value`. -/
def Writer.WriteField (w : Writer) (name value : String) : Writer :=
  ⟨w.parts ++ [Part.field (escapeQuotes name) value]⟩

/-- `(*multipart.Writer).CreateFormFile(fieldname, filename)`: opens a new file part, its
header `form-data; name="..."; filename="..."` carrying `escapeQuotes(fieldname)` and
`escapeQuotes(filename)`; its content is whatever is written to the returned `io.Writer`
before the next part is started. -/
def Writer.CreateFormFile (w : Writer) (fieldname filename : String) : Writer :=
  ⟨w.parts ++ [Part.file (escapeQuotes fieldname) (escapeQuotes filename) ""]⟩

/-- `fmt.Fprint(f, value)` on the `io.Writer` of the part opened last: appends `value` to the
content of that part. -/
def Writer.Fprint (w : Writer) (value : String) : Writer :=
  match w.parts.reverse with
  | Part.file fieldname filename content :: before =>
      ⟨before.reverse ++ [Part.file fieldname filename (content ++ value)]⟩
  | _ => w

/-- `strings.HasPrefix(s, prefix)`. -/
def HasPrefix (s pre : String) : Bool :=
  pre.data.isPrefixOf s.data

/-- The Go slice expression `s[n:]`, used by the code only after a one-byte prefix was found. -/
def sliceFrom (s : String) (n : Nat) : String :=
  String.mk (s.data.drop n)

/-- A Go `map[string]interface{}` handed to `Do`, listed in the order in which `range`
happens to visit its entries. The values have type `V`; their `%v` form is given by the
function passed to `Do_encode`. -/
abbrev ParamMap (V : Type) := List (String × V)

/-- Body of the `for n, v := range args[0]` loop of `Client.Do` (lines 70-77). The key is a
string, so `fmt.Sprintf("%v", n)` is the key itself. -/
def encodeEntry {V : Type} (sprint : V → String) (w : Writer) (e : String × V) : Writer :=
  let name := e.1
  let value := sprint e.2
  if HasPrefix name "@" then
    let name := sliceFrom name 1
    let w := w.CreateFormFile name name
    w.Fprint value
  else
    w.WriteField name value

/-- Request half of `Client.Do` (lines 63-80): the parts written to the request body.
`args` is the variadic argument list; `none` stands for a nil map. -/
def Do_encode {V : Type} (sprint : V → String) (APIKey sectionName action : String)
    (args : List (Option (ParamMap V))) : List Part :=
  let w := NewWriter
  let w := w.WriteField "api_key" APIKey
  let w := w.WriteField "section" sectionName
  let w := w.WriteField "action" action
  let w :=
    match args with
    | some m :: _ => m.foldl (encodeEntry sprint) w
    | _ => w
  w.parts

/-- The three fixed fields every request starts with. -/
def fixedFields (APIKey sectionName action : String) : List Part :=
  [Part.field "api_key" APIKey, Part.field "section" sectionName, Part.field "action" action]

/-- The single part one parameter entry contributes to the body. -/
def entryPart {V : Type} (sprint : V → String) (e : String × V) : Part :=
  if HasPrefix e.1 "@" then
    Part.file (escapeQuotes (sliceFrom e.1 1)) (escapeQuotes (sliceFrom e.1 1)) (sprint e.2)
  else
    Part.field (escapeQuotes e.1) (sprint e.2)

/-- The key `a`, line feed, `b`. -/
def keyWithLineFeed : String := String.mk ['a', Char.ofNat 10, 'b']

/-- The file-marked key `@a`, line feed, `b`. -/
def markedKeyWithLineFeed : String := String.mk ['@', 'a', Char.ofNat 10, 'b']

/-! ## XML documents and the `encoding/xml` decoding of the response structs -/

/-- An XML node as `encoding/xml` tokenises it: an element (local name, attributes in document
order, child nodes) or a run of character data. Comments, processing instructions and
directives are not represented: no field of the structs decoded here receives them. -/
inductive XmlNode where
  | element (name : String) (attrs : List (String × String)) (children : List XmlNode)
  | chardata (text : String)

/-- The response bytes `b`, as far as `xml.Unmarshal` can tell them apart: bytes the tokeniser
rejects before the root element is closed (`malformed`, which includes an empty body), or a
document with the given root element. -/
inductive Body where
  | malformed
  | document (name : String) (attrs : List (String × String)) (children : List XmlNode)

/-- Error values (Go `error`) that `Client.Do` can return from its decoding step. -/
inductive GoError where
  /-- a `*xml.SyntaxError` or `io.EOF` of the tokeniser -/
  | xmlSyntax
  /-- a `*strconv.NumError`: the text is not an integer of the field's size -/
  | numError (text : String)
  /-- an error made by `fmt.Errorf`, with its text -/
  | errorf (text : String)
  /-- any other error a typed result's own decoding reports -/
  | other (text : String)
  deriving DecidableEq, Repr

/-- `unicode.IsSpace`. -/
def isSpace (c : Char) : Bool :=
  let n := c.toNat
  n = 9 || n = 10 || n = 11 || n = 12 || n = 13 || n = 32 || n = 0x85 || n = 0xA0 ||
  n = 0x1680 || (0x2000 ≤ n && n ≤ 0x200A) || n = 0x2028 || n = 0x2029 || n = 0x202F ||
  n = 0x205F || n = 0x3000

/-- `strings.TrimSpace`. -/
def TrimSpace (s : List Char) : List Char :=
  ((s.dropWhile isSpace).reverse.dropWhile isSpace).reverse

/-- Whether a character is one of the bytes `'0'..'9'`. -/
def isDigitChar (c : Char) : Bool :=
  decide (48 ≤ c.toNat) && decide (c.toNat ≤ 57)

/-- Value of a decimal digit. -/
def digitVal (c : Char) : Nat := c.toNat - 48

/-- Decimal value of a run of digits, most significant first. -/
def decimalValue (ds : List Char) : Nat :=
  ds.foldl (fun acc c => 10 * acc + digitVal c) 0

/-- `strconv.ParseInt(s, 10, 64)`: an optional sign, then one or more decimal digits, the
value within the range of `int64`. `none` is a `*strconv.NumError`. -/
def ParseInt (s : List Char) : Option Int :=
  let (neg, ds) :=
    match s with
    | '+' :: ds => (false, ds)
    | '-' :: ds => (true, ds)
    | ds => (false, ds)
  if ds.isEmpty || !ds.all isDigitChar then none
  else
    let un := decimalValue ds
    if !neg && un ≥ 2 ^ 63 then none
    else if neg && un > 2 ^ 63 then none
    else some (if neg then - (un : Int) else (un : Int))

/-- Part of `copyValue` of `encoding/xml` for a destination of kind `int`: empty data sets
zero, other data goes through `strconv.ParseInt(strings.TrimSpace(src), 10, 64)`, whose error
names the trimmed text. -/
def copyValueInt (src : String) : Except GoError Int :=
  if src.data.isEmpty then Except.ok 0
  else
    match ParseInt (TrimSpace src.data) with
    | some i => Except.ok i
    | none => Except.error (GoError.numError (String.mk (TrimSpace src.data)))

/-- The character data directly inside an element: the `CharData` tokens the decoder
accumulates while it skips or decodes the child elements. -/
def directText : List XmlNode → String
  | [] => ""
  | XmlNode.chardata t :: rest => t ++ directText rest
  | XmlNode.element _ _ _ :: rest => directText rest

/-- The anonymous struct behind `Response.Error`. -/
structure ErrorInfo where
  Code : Int
  Message : String
  deriving DecidableEq, Repr

/-- Type `Response` (lines 112-118). `Error` is a pointer: `none` is nil. -/
structure Response where
  Status : Int
  Error : Option ErrorInfo
  deriving DecidableEq, Repr

/-- Type `ResponseCreate` (lines 121-124): an embedded `Response` and `ID`. -/
structure ResponseCreate where
  toResponse : Response
  ID : Int
  deriving DecidableEq, Repr

/-- Decoding of the attributes of an `error` element into the `code,attr` field: every
attribute named `code` is copied into `Code`. -/
def unmarshalErrorAttrs (e : ErrorInfo) : List (String × String) → Except GoError ErrorInfo
  | [] => Except.ok e
  | (n, v) :: rest =>
      if n = "code" then
        match copyValueInt v with
        | Except.ok c => unmarshalErrorAttrs { e with Code := c } rest
        | Except.error err => Except.error err
      else unmarshalErrorAttrs e rest

/-- Decoding of one `error` element into the `Error` field: a nil pointer is first set to a
new zero struct, then the attributes are read and the character data is stored in
`Message`. -/
def unmarshalErrorElement (cur : Option ErrorInfo) (attrs : List (String × String))
    (children : List XmlNode) : Except GoError ErrorInfo :=
  let e := cur.getD ⟨0, ""⟩
  match unmarshalErrorAttrs e attrs with
  | Except.ok e => Except.ok { e with Message := directText children }
  | Except.error err => Except.error err

/-- Decoding of one child node of the root into a `Response`: `status` and `error` elements
go to their fields, every other node is skipped. -/
def unmarshalResponseChild (r : Response) : XmlNode → Except GoError Response
  | XmlNode.element name attrs children =>
      if name = "status" then
        match copyValueInt (directText children) with
        | Except.ok s => Except.ok { r with Status := s }
        | Except.error err => Except.error err
      else if name = "error" then
        match unmarshalErrorElement r.Error attrs children with
        | Except.ok e => Except.ok { r with Error := some e }
        | Except.error err => Except.error err
      else Except.ok r
  | XmlNode.chardata _ => Except.ok r

/-- Decoding of the children of the root, in document order, stopping at the first error. -/
def unmarshalResponseChildren (r : Response) : List XmlNode → Except GoError Response
  | [] => Except.ok r
  | c :: rest =>
      match unmarshalResponseChild r c with
      | Except.ok r1 => unmarshalResponseChildren r1 rest
      | Except.error err => Except.error err

/-- `xml.Unmarshal(b, &resBody)` for `var resBody Response` (lines 95-96). `Response` declares
no `XMLName`, so a root element of any name is accepted. -/
def unmarshalResponse (b : Body) : Except GoError Response :=
  match b with
  | Body.malformed => Except.error GoError.xmlSyntax
  | Body.document _ _ children => unmarshalResponseChildren ⟨0, none⟩ children

/-- Decoding of the attributes of an `error` element into the struct behind the `Error`
pointer of a typed result, with what is stored when it stops: every `code` attribute before
the first bad one has been copied into `Code`. -/
def storeErrorAttrs (e : ErrorInfo) : List (String × String) → ErrorInfo × Option GoError
  | [] => (e, none)
  | (n, v) :: rest =>
      if n = "code" then
        match copyValueInt v with
        | Except.ok c => storeErrorAttrs { e with Code := c } rest
        | Except.error err => (e, some err)
      else storeErrorAttrs e rest

/-- Decoding of one `error` element into the `Error` field of a typed result, with what is
stored when it stops: a nil pointer is set to a new zero struct before anything is read, the
attributes are read next, and the character data is stored in `Message` only when the end of
the element is reached without error. -/
def storeErrorElement (cur : Option ErrorInfo) (attrs : List (String × String))
    (children : List XmlNode) : ErrorInfo × Option GoError :=
  let r := storeErrorAttrs (cur.getD ⟨0, ""⟩) attrs
  match r.2 with
  | none => ({ r.1 with Message := directText children }, none)
  | some err => (r.1, some err)

/-- Decoding of one child node of the root into a `ResponseCreate`: `id`, and the promoted
fields `status` and `error` of the embedded `Response`; every other node is skipped. The
result is the target as the step leaves it and the error it stops with. -/
def unmarshalResponseCreateChild (t : ResponseCreate) :
    XmlNode → ResponseCreate × Option GoError
  | XmlNode.element name attrs children =>
      if name = "id" then
        match copyValueInt (directText children) with
        | Except.ok i => ({ t with ID := i }, none)
        | Except.error err => (t, some err)
      else if name = "status" then
        match copyValueInt (directText children) with
        | Except.ok st => ({ t with toResponse := { t.toResponse with Status := st } }, none)
        | Except.error err => (t, some err)
      else if name = "error" then
        let r := storeErrorElement t.toResponse.Error attrs children
        ({ t with toResponse := { t.toResponse with Error := some r.1 } }, r.2)
      else (t, none)
  | XmlNode.chardata _ => (t, none)

/-- Decoding of the children of the root into a `ResponseCreate`, in document order: the
target keeps what was stored up to the first error. -/
def unmarshalResponseCreateChildren (t : ResponseCreate) :
    List XmlNode → ResponseCreate × Option GoError
  | [] => (t, none)
  | c :: rest =>
      match unmarshalResponseCreateChild t c with
      | (t1, none) => unmarshalResponseCreateChildren t1 rest
      | (t1, some err) => (t1, some err)

/-- `xml.Unmarshal(b, o)` for `o` a non-nil `*ResponseCreate`: the struct `o` points to after
the call, and the error returned. For bytes the tokeniser rejects, the fields read before the
bad byte are not described by `Body.malformed`, and the target is given back as it was;
`Do_decode` never decodes such bytes into a target, their envelope decode having failed. -/
def unmarshalResponseCreate (b : Body) (t : ResponseCreate) : ResponseCreate × Option GoError :=
  match b with
  | Body.malformed => (t, some GoError.xmlSyntax)
  | Body.document _ _ children => unmarshalResponseCreateChildren t children

/-! ## Response decoding -/

/-- The verb `%d` of `fmt` for an `int`. -/
def fmtD (c : Int) : String :=
  if c < 0 then "-" ++ Nat.repr c.natAbs else Nat.repr c.natAbs

/-- `fmt.Errorf("%s [Error #%d]", message, code)` (lines 101-102). -/
def Errorf (message : String) (code : Int) : GoError :=
  GoError.errorf (message ++ " [Error #" ++ fmtD code ++ "]")

/-- How the decoding step of `Client.Do` ends: it returns an `error` (`none` is nil), or the
goroutine panics on a nil pointer dereference. -/
inductive Outcome where
  | returned (err : Option GoError)
  | nilDereference
  deriving DecidableEq, Repr

/-- Response half of `Client.Do` (lines 95-108). `o` is the argument `o interface{}`: `none`
is the nil interface, `some t` a pointer to a typed result holding `t`. `unmarshal b t` is
`xml.Unmarshal(b, o)` for that pointer: the value it leaves in the target and the error it
returns. The result pairs the target as the call leaves it with the way the call ends.

When `resBody.Status != 1`, the arguments of `fmt.Errorf` are evaluated first, and
`resBody.Error.Message` dereferences the pointer `resBody.Error`. -/
def Do_decode {T : Type} (unmarshal : Body → T → T × Option GoError) (b : Body)
    (o : Option T) : Option T × Outcome :=
  match unmarshalResponse b with
  | Except.error err => (o, Outcome.returned (some err))
  | Except.ok resBody =>
      if resBody.Status ≠ 1 then
        match resBody.Error with
        | none => (o, Outcome.nilDereference)
        | some e => (o, Outcome.returned (some (Errorf e.Message e.Code)))
      else
        match o with
        | none => (none, Outcome.returned none)
        | some t =>
            let r := unmarshal b t
            (some r.1, Outcome.returned r.2)

/-! ## `time.Parse` with the layout of `DateTime`, and `time.Time`

Go's `int` and `int64` are represented by `Int`, `uint64` by the non-negative `Int`s, with the
wrap-around of 64-bit arithmetic made explicit by `u64` and `i64`. -/

/-- Conversion to `uint64`, and the result of `uint64` arithmetic: the value modulo `2^64`. -/
def u64 (x : Int) : Int := x % 18446744073709551616

/-- Conversion to `int64`, and the result of `int64` arithmetic: the value wrapped into
`[-2^63, 2^63)`. -/
def i64 (x : Int) : Int := (x + 9223372036854775808) % 18446744073709551616 - 9223372036854775808

/-- `isDigit(s, i)` of package `time`: `s[i]` exists and is a decimal digit. -/
def isDigit (s : List Char) (i : Nat) : Bool :=
  match s[i]? with
  | some c => isDigitChar c
  | none => false

/-- `getnum(s, fixed)` of package `time`: a one- or two-digit number at the start of `s`, two
digits being required when `fixed`; `none` is `errBad`. -/
def getnum (s : List Char) (fixed : Bool) : Option (Int × List Char) :=
  if !isDigit s 0 then none
  else if !isDigit s 1 then
    if fixed then none
    else some ((digitVal (s.getD 0 '0') : Int), s.drop 1)
  else some ((digitVal (s.getD 0 '0') : Int) * 10 + (digitVal (s.getD 1 '0') : Int), s.drop 2)

/-- `atoi(s)` of package `time`: an optional sign and a run of digits that is all of `s`;
`none` is `errAtoi`. The digits are read by `leadingInt`, which fails once the value
exceeds `1<<63`. -/
def atoi (s : List Char) : Option Int :=
  let signed := !s.isEmpty && (decide (s.getD 0 ' ' = '-') || decide (s.getD 0 ' ' = '+'))
  let neg := signed && decide (s.getD 0 ' ' = '-')
  let s := if signed then s.drop 1 else s
  let q := decimalValue (s.takeWhile isDigitChar)
  let rem := s.dropWhile isDigitChar
  if q > 9223372036854775808 || !rem.isEmpty then none
  else
    let x := i64 q
    some (if neg then i64 (-x) else x)

/-- `cutspace(s)`: `s` without its leading spaces. -/
def cutspace (s : List Char) : List Char :=
  s.dropWhile (fun c => c = ' ')

/-- Loop of `skip(value, pre)`, one iteration per unit of fuel. -/
def skipLoop : Nat → List Char → List Char → Option (List Char)
  | 0, value, _ => some value
  | fuel + 1, value, pre =>
      match pre with
      | [] => some value
      | p :: ptail =>
          if p = ' ' then
            match value with
            | v :: _ =>
                if v ≠ ' ' then none
                else skipLoop fuel (cutspace value) (cutspace pre)
            | [] => skipLoop fuel (cutspace value) (cutspace pre)
          else
            match value with
            | v :: vtail => if v ≠ p then none else skipLoop fuel vtail ptail
            | [] => none

/-- `skip(value, pre)` of package `time`: `value` with the literal text `pre` of the layout
removed from its start, a space of the layout standing for one or more spaces of the value (or
for the end of the value); `none` is `errBad`. Every iteration shortens `pre`, so its length
is fuel enough. -/
def skip (value pre : List Char) : Option (List Char) :=
  skipLoop pre.length value pre

/-- The layout elements that occur in `"2006-01-02 15:04:05"`. -/
inductive Std where
  | stdLongYear
  | stdZeroMonth
  | stdZeroDay
  | stdHour
  | stdZeroMinute
  | stdZeroSecond
  deriving DecidableEq, Repr

/-- The layout `"2006-01-02 15:04:05"` of line 192 as the successive calls of `nextStdChunk`
cut it up: each element with the literal text that precedes it. After the last element the
layout is empty. -/
def layoutChunks : List (List Char × Std) :=
  [([], Std.stdLongYear), (['-'], Std.stdZeroMonth), (['-'], Std.stdZeroDay),
   ([' '], Std.stdHour), ([':'], Std.stdZeroMinute), ([':'], Std.stdZeroSecond)]

/-- The errors of `time.Parse` (`*time.ParseError`). -/
inductive ParseError where
  /-- the value does not match the layout at some element or literal text -/
  | bad
  /-- a component is out of range: month, hour, minute, second, fractional second -/
  | outOfRange (what : String)
  /-- text is left in the value after the layout is used up -/
  | extraText
  /-- the day does not exist in the month -/
  | dayOutOfRange
  deriving DecidableEq, Repr

/-- The local variables of `parse` that the layout sets. -/
structure Fields where
  year : Int
  month : Int
  day : Int
  hour : Int
  min : Int
  sec : Int
  nsec : Int
  deriving DecidableEq, Repr

/-- `commaOrPeriod(b)`. -/
def commaOrPeriod (c : Char) : Bool := c = '.' || c = ','

/-- `parseNanoseconds(value, nbytes)`: `value` starts with a comma or period followed by
digits, `nbytes` long in all; at most nine digits are used. -/
def parseNanoseconds (value : List Char) (nbytes : Nat) : Except ParseError Int :=
  if !commaOrPeriod (value.getD 0 ' ') then Except.error ParseError.bad
  else
    let value := if nbytes > 10 then value.take 10 else value
    let nbytes := if nbytes > 10 then 10 else nbytes
    match atoi ((value.take nbytes).drop 1) with
    | none => Except.error ParseError.bad
    | some ns =>
        if ns < 0 then Except.error (ParseError.outOfRange "fractional second")
        else Except.ok (ns * 10 ^ (10 - nbytes))

/-- One case of the `switch std & stdMask` of `parse`, with the range and error checks that
follow the switch: the fields and the rest of the value after the element is read. -/
def parseElement (std : Std) (f : Fields) (value : List Char) :
    Except ParseError (Fields × List Char) :=
  match std with
  | Std.stdLongYear =>
      if value.length < 4 || !isDigit value 0 then Except.error ParseError.bad
      else
        match atoi (value.take 4) with
        | none => Except.error ParseError.bad
        | some year => Except.ok ({ f with year := year }, value.drop 4)
  | Std.stdZeroMonth =>
      match getnum value true with
      | none => Except.error ParseError.bad
      | some (month, value) =>
          if month ≤ 0 || 12 < month then Except.error (ParseError.outOfRange "month")
          else Except.ok ({ f with month := month }, value)
  | Std.stdZeroDay =>
      match getnum value true with
      | none => Except.error ParseError.bad
      | some (day, value) => Except.ok ({ f with day := day }, value)
  | Std.stdHour =>
      match getnum value false with
      | none => Except.error ParseError.bad
      | some (hour, value) =>
          if hour < 0 || 24 ≤ hour then Except.error (ParseError.outOfRange "hour")
          else Except.ok ({ f with hour := hour }, value)
  | Std.stdZeroMinute =>
      match getnum value true with
      | none => Except.error ParseError.bad
      | some (min, value) =>
          if min < 0 || 60 ≤ min then Except.error (ParseError.outOfRange "minute")
          else Except.ok ({ f with min := min }, value)
  | Std.stdZeroSecond =>
      match getnum value true with
      | none => Except.error ParseError.bad
      | some (sec, value) =>
          if sec < 0 || 60 ≤ sec then Except.error (ParseError.outOfRange "second")
          else if value.length ≥ 2 && commaOrPeriod (value.getD 0 ' ') && isDigit value 1 then
            -- a fractional second in the value that the layout does not mention
            let n := 2 + ((value.drop 2).takeWhile isDigitChar).length
            match parseNanoseconds value n with
            | Except.error err => Except.error err
            | Except.ok nsec => Except.ok ({ f with sec := sec, nsec := nsec }, value.drop n)
          else Except.ok ({ f with sec := sec }, value)

/-- The main loop of `parse`: for each element of the layout, skip the literal text before
it, then read the element; when the layout is used up, the value must be used up too. -/
def parseChunks : List (List Char × Std) → Fields → List Char → Except ParseError Fields
  | [], f, value => if value.length ≠ 0 then Except.error ParseError.extraText else Except.ok f
  | (pre, std) :: rest, f, value =>
      match skip value pre with
      | none => Except.error ParseError.bad
      | some value =>
          match parseElement std f value with
          | Except.error err => Except.error err
          | Except.ok (f, value) => parseChunks rest f value

/-- `isLeap(year)`. -/
def isLeap (year : Int) : Bool :=
  year % 4 = 0 && (year % 100 ≠ 0 || year % 400 = 0)

/-- The table `daysBefore`: `daysBefore i` is the number of days in a non-leap year before
month `i + 1`. -/
def daysBefore (i : Int) : Int :=
  if i = 0 then 0
  else if i = 1 then 31
  else if i = 2 then 59
  else if i = 3 then 90
  else if i = 4 then 120
  else if i = 5 then 151
  else if i = 6 then 181
  else if i = 7 then 212
  else if i = 8 then 243
  else if i = 9 then 273
  else if i = 10 then 304
  else if i = 11 then 334
  else 365

/-- `daysIn(m, year)`. -/
def daysIn (m : Int) (year : Int) : Int :=
  if m = 2 && isLeap year then 29
  else daysBefore m - daysBefore (m - 1)

/-- The constant `absoluteZeroYear`. -/
def absoluteZeroYear : Int := -292277022399

/-- The constant `absoluteToInternal`, `(absoluteZeroYear - internalYear) * 365.2425 *
secondsPerDay`. -/
def absoluteToInternal : Int := -9223371966579724800

/-- The constant `internalToAbsolute`. -/
def internalToAbsolute : Int := -absoluteToInternal

/-- The constant `unixToInternal`, `(1969*365 + 1969/4 - 1969/100 + 1969/400) *
secondsPerDay`. -/
def unixToInternal : Int := 62135596800

/-- The constant `internalToUnix`. -/
def internalToUnix : Int := -unixToInternal

/-- A `time.Time` without monotonic clock reading, in the location UTC: the nanoseconds held
in `wall`, and `ext`, the seconds since January 1 of year 1. -/
structure Time where
  nsec : Int
  ext : Int
  deriving DecidableEq, Repr

/-- `norm(hi, lo, base)`: `lo` brought into `[0, base)`, the excess carried into `hi`. -/
def norm (hi lo base : Int) : Int × Int :=
  let r : Int × Int :=
    if lo < 0 then
      let n := (-lo - 1) / base + 1
      (hi - n, lo + n * base)
    else (hi, lo)
  if r.2 ≥ base then
    let n := r.2 / base
    (r.1 + n, r.2 - n * base)
  else r

/-- `daysSinceEpoch(year)`: the days from the absolute epoch to the start of `year`. -/
def daysSinceEpoch (year : Int) : Int :=
  let y := u64 (i64 (year - absoluteZeroYear))
  -- 400-year cycles
  let n := y / 400
  let y := u64 (y - u64 (400 * n))
  let d := u64 (146097 * n)
  -- 100-year cycles
  let n := y / 100
  let y := u64 (y - u64 (100 * n))
  let d := u64 (d + u64 (36524 * n))
  -- 4-year cycles
  let n := y / 4
  let y := u64 (y - u64 (4 * n))
  let d := u64 (d + u64 (1461 * n))
  -- non-leap years
  let n := y
  u64 (d + u64 (365 * n))

/-- `unixTime(sec, nsec)` followed by `setLoc(UTC)`. -/
def unixTime (sec : Int) (nsec : Int) : Time :=
  ⟨nsec, i64 (sec + unixToInternal)⟩

/-- `time.Date(year, month, day, hour, min, sec, nsec, time.UTC)`. -/
def Date (year month day hour min sec nsec : Int) : Time :=
  -- normalise month, overflowing into year
  let m := month - 1
  let ym := norm year m 12
  let year := ym.1
  let month := ym.2 + 1
  -- normalise nsec, sec, min, hour, overflowing into day
  let sn := norm sec nsec 1000000000
  let ms := norm min sn.1 60
  let hm := norm hour ms.1 60
  let dh := norm day hm.1 24
  let nsec := sn.2
  let sec := ms.2
  let min := hm.2
  let hour := dh.2
  let day := dh.1
  -- days since the absolute epoch
  let d := daysSinceEpoch year
  let d := u64 (d + u64 (daysBefore (month - 1)))
  let d := if isLeap year && month ≥ 3 then u64 (d + 1) else d
  let d := u64 (d + u64 (day - 1))
  -- time elapsed today
  let abs := u64 (d * 86400)
  let abs := u64 (abs + u64 (hour * 3600 + min * 60 + sec))
  let unix := i64 (i64 abs + (absoluteToInternal + internalToUnix))
  unixTime unix nsec

/-- `(Time).abs()` for a time in UTC: the seconds since the absolute epoch, as `uint64`. -/
def Time.abs (t : Time) : Int :=
  let sec := i64 (t.ext + internalToUnix)
  u64 (i64 (sec + (unixToInternal + internalToAbsolute)))

/-- `absDate(abs, true)`: year, month and day of the month of an absolute time. -/
def absDate (abs : Int) : Int × Int × Int :=
  let d := abs / 86400
  -- 400-year cycles
  let n := d / 146097
  let y := 400 * n
  let d := d - 146097 * n
  -- 100-year cycles; the last one has an extra leap day
  let n := d / 36524
  let n := n - n / 4
  let y := y + 100 * n
  let d := d - 36524 * n
  -- 4-year cycles
  let n := d / 1461
  let y := y + 4 * n
  let d := d - 1461 * n
  -- years within a 4-year cycle
  let n := d / 365
  let n := n - n / 4
  let y := y + n
  let d := d - 365 * n
  let year := i64 (i64 y + absoluteZeroYear)
  let day := d
  if isLeap year && day = 31 + 29 - 1 then (year, 2, 29)
  else
    let day := if isLeap year && day > 31 + 29 - 1 then day - 1 else day
    -- estimate the month as if every month had 31 days, then adjust
    let month := day / 31
    let fin := daysBefore (month + 1)
    if day ≥ fin then (year, month + 1 + 1, day - fin + 1)
    else (year, month + 1, day - daysBefore month + 1)

/-- `(Time).Year()`. -/
def Time.Year (t : Time) : Int := (absDate t.abs).1

/-- `(Time).Month()`. -/
def Time.Month (t : Time) : Int := (absDate t.abs).2.1

/-- `(Time).Day()`. -/
def Time.Day (t : Time) : Int := (absDate t.abs).2.2

/-- `(Time).Hour()`. -/
def Time.Hour (t : Time) : Int := (t.abs % 86400) / 3600

/-- `(Time).Minute()`. -/
def Time.Minute (t : Time) : Int := (t.abs % 3600) / 60

/-- `(Time).Second()`. -/
def Time.Second (t : Time) : Int := t.abs % 60

/-- `(Time).Nanosecond()`. -/
def Time.Nanosecond (t : Time) : Int := t.nsec

/-- `time.Parse("2006-01-02 15:04:05", value)`: the loop over the layout, the validation of
the day of the month, and `Date` in UTC, no zone being named by the layout. -/
def Parse (value : List Char) : Except ParseError Time :=
  match parseChunks layoutChunks ⟨0, -1, -1, 0, 0, 0, 0⟩ value with
  | Except.error err => Except.error err
  | Except.ok f =>
      -- no day of the year was read: a month or day the layout did not set defaults to 1
      let month := if f.month < 0 then 1 else f.month
      let day := if f.day < 0 then 1 else f.day
      -- validate the day of the month
      if day < 1 || day > daysIn month f.year then Except.error ParseError.dayOutOfRange
      else Except.ok (Date f.year month day f.hour f.min f.sec f.nsec)

/-- Type `DateTime` (lines 183-185): an embedded `time.Time`. -/
structure DateTime where
  Time : Time
  deriving DecidableEq, Repr

/-- `(*DateTime).UnmarshalXML` (lines 188-199), after `d.DecodeElement(&v, &start)` has read
the string `v` (its error is discarded): the value of `*t` after the call and the error
returned. -/
def DateTime.UnmarshalXML (t : DateTime) (v : String) : DateTime × Option ParseError :=
  match Parse v.data with
  | Except.error err => (t, some err)
  | Except.ok parsed => (⟨parsed⟩, none)

/-! ## The timestamp format as the specification words it -/

/-- Number of days of a month of the Gregorian calendar. -/
def calendarDays (year month : Nat) : Nat :=
  if month = 2 then
    if year % 4 = 0 ∧ (year % 100 ≠ 0 ∨ year % 400 = 0) then 29 else 28
  else if month = 4 ∨ month = 6 ∨ month = 9 ∨ month = 11 then 30
  else 31

/-- The components denote a calendar date and a time of the 24-hour clock. -/
def ValidComponents (year month day hour min sec : Nat) : Prop :=
  1 ≤ month ∧ month ≤ 12 ∧ 1 ≤ day ∧ day ≤ calendarDays year month ∧
  hour ≤ 23 ∧ min ≤ 59 ∧ sec ≤ 59

/-- The strings the specification calls exactly of the form `YYYY-MM-DD HH:MM:SS`: a
four-digit year, two-digit month, day, hour, minute and second, the separators `-`, `-`, one
space, `:`, `:`, nothing before or after, every component in range. -/
def IsStrictValue (s : List Char) : Prop :=
  ∃ y1 y2 y3 y4 m1 m2 d1 d2 h1 h2 n1 n2 s1 s2 : Char,
    s = [y1, y2, y3, y4, '-', m1, m2, '-', d1, d2, ' ', h1, h2, ':', n1, n2, ':', s1, s2] ∧
    (∀ c ∈ [y1, y2, y3, y4, m1, m2, d1, d2, h1, h2, n1, n2, s1, s2], isDigitChar c = true) ∧
    ValidComponents (decimalValue [y1, y2, y3, y4]) (decimalValue [m1, m2])
      (decimalValue [d1, d2]) (decimalValue [h1, h2]) (decimalValue [n1, n2])
      (decimalValue [s1, s2])

/-- The strings `time.Parse` accepts for the layout, as the amended claim words them: a
four-digit year, `-`, a two-digit month, `-`, a two-digit day, one or more spaces, an hour of
one or two digits, `:`, a two-digit minute, `:`, a two-digit second, and then either nothing
or a fractional second (a period or comma followed by one or more digits); every component in
range. -/
def IsLayoutValue (s : List Char) : Prop :=
  ∃ (y1 y2 y3 y4 m1 m2 d1 d2 : Char) (sp hh : List Char) (n1 n2 s1 s2 : Char)
    (frac : List Char),
    s = [y1, y2, y3, y4, '-', m1, m2, '-', d1, d2, ' '] ++ sp ++ hh
          ++ [':', n1, n2, ':', s1, s2] ++ frac ∧
    (∀ c ∈ [y1, y2, y3, y4, m1, m2, d1, d2, n1, n2, s1, s2], isDigitChar c = true) ∧
    (∀ c ∈ sp, c = ' ') ∧
    (hh.length = 1 ∨ hh.length = 2) ∧ (∀ c ∈ hh, isDigitChar c = true) ∧
    (frac = [] ∨ ∃ c ds, frac = c :: ds ∧ (c = '.' ∨ c = ',') ∧ ds ≠ [] ∧
      ∀ d ∈ ds, isDigitChar d = true) ∧
    ValidComponents (decimalValue [y1, y2, y3, y4]) (decimalValue [m1, m2])
      (decimalValue [d1, d2]) (decimalValue hh) (decimalValue [n1, n2])
      (decimalValue [s1, s2])

/-! ## Example responses -/

/-- The document `<xml><status>0</status></xml>`. -/
def bodyStatus0 : Body :=
  Body.document "xml" [] [XmlNode.element "status" [] [XmlNode.chardata "0"]]

/-- The document `<xml><status>1</status></xml>`. -/
def bodyStatus1 : Body :=
  Body.document "xml" [] [XmlNode.element "status" [] [XmlNode.chardata "1"]]

/-- The document `<xml><status>0</status><error code="42">Invalid key</error></xml>`. -/
def bodyInvalidKey : Body :=
  Body.document "xml" []
    [XmlNode.element "status" [] [XmlNode.chardata "0"],
     XmlNode.element "error" [("code", "42")] [XmlNode.chardata "Invalid key"]]

/-- The document
`<xml><status>1</status><error code="3">stale</error><count>x</count></xml>`. -/
def bodyStatus1WithError : Body :=
  Body.document "xml" []
    [XmlNode.element "status" [] [XmlNode.chardata "1"],
     XmlNode.element "error" [("code", "3")] [XmlNode.chardata "stale"],
     XmlNode.element "count" [] [XmlNode.chardata "x"]]

/-- Whether a node is an `id` element. -/
def XmlNode.isIdElement : XmlNode → Bool
  | XmlNode.element name _ _ => name = "id"
  | XmlNode.chardata _ => false

/-- Whether the document has an `id` element under its root, the element the `ID` field of
`ResponseCreate` is decoded from. -/
def Body.hasIdElement : Body → Bool
  | Body.malformed => false
  | Body.document _ _ children => children.any XmlNode.isIdElement

/-! ## Theorems: request encoding -/

theorem Writer.Fprint_CreateFormFile (w : Writer) (a b v : String) :
    ((w.CreateFormFile a b).Fprint v).parts
      = w.parts ++ [Part.file (escapeQuotes a) (escapeQuotes b) v] := by
  simp [Writer.CreateFormFile, Writer.Fprint]

theorem encodeEntry_parts {V : Type} (sprint : V → String) (w : Writer) (e : String × V) :
    (encodeEntry sprint w e).parts = w.parts ++ [entryPart sprint e] := by
  unfold encodeEntry entryPart
  by_cases h : HasPrefix e.1 "@" = true
  · simp [h, Writer.Fprint_CreateFormFile]
  · simp [h, Writer.WriteField]

theorem foldl_encodeEntry_parts {V : Type} (sprint : V → String) (m : ParamMap V) (w : Writer) :
    (m.foldl (encodeEntry sprint) w).parts = w.parts ++ m.map (entryPart sprint) := by
  induction m generalizing w with
  | nil => simp
  | cons e m ih => simp [List.foldl_cons, ih, encodeEntry_parts]

theorem escapeQuotes_fixed_names :
    escapeQuotes "api_key" = "api_key" ∧ escapeQuotes "section" = "section" ∧
    escapeQuotes "action" = "action" := by decide

theorem Do_encode_eq {V : Type} (sprint : V → String) (APIKey sectionName action : String)
    (m : ParamMap V) (rest : List (Option (ParamMap V))) :
    Do_encode sprint APIKey sectionName action (some m :: rest)
      = fixedFields APIKey sectionName action ++ m.map (entryPart sprint) := by
  obtain ⟨h1, h2, h3⟩ := escapeQuotes_fixed_names
  simp [Do_encode, foldl_encodeEntry_parts, NewWriter, Writer.WriteField, fixedFields, h1, h2, h3]

theorem Do_encode_nil {V : Type} (sprint : V → String) (APIKey sectionName action : String) :
    Do_encode sprint APIKey sectionName action [] = fixedFields APIKey sectionName action := by
  obtain ⟨h1, h2, h3⟩ := escapeQuotes_fixed_names
  simp [Do_encode, NewWriter, Writer.WriteField, fixedFields, h1, h2, h3]

theorem Do_encode_nil_map {V : Type} (sprint : V → String) (APIKey sectionName action : String)
    (rest : List (Option (ParamMap V))) :
    Do_encode sprint APIKey sectionName action (none :: rest)
      = fixedFields APIKey sectionName action := by
  obtain ⟨h1, h2, h3⟩ := escapeQuotes_fixed_names
  simp [Do_encode, NewWriter, Writer.WriteField, fixedFields, h1, h2, h3]

theorem HasPrefix_at_data (k : String) (hk : HasPrefix k "@" = true) :
    k.data = '@' :: (sliceFrom k 1).data := by
  unfold HasPrefix at hk
  unfold sliceFrom
  cases hd : k.data with
  | nil => simp [hd] at hk
  | cons c cs =>
      rw [hd] at hk
      have hc : '@' = c := by simpa [List.isPrefixOf] using hk
      simp [← hc]

theorem escapeChar_of_not_needsEscape (c : Char) (h : needsEscape c = false) :
    escapeChar c = [c] := by
  simp only [needsEscape, Bool.or_eq_false_iff, decide_eq_false_iff_not] at h
  obtain ⟨⟨⟨h1, h2⟩, h3⟩, h4⟩ := h
  simp [escapeChar, h1, h2, h3, h4]

theorem escapeChars_of_not_needsEscape (l : List Char) (h : ∀ c ∈ l, needsEscape c = false) :
    escapeChars l = l := by
  induction l with
  | nil => rfl
  | cons c cs ih =>
      have hc := escapeChar_of_not_needsEscape c (h c (List.mem_cons_self c cs))
      have hcs := ih (fun x hx => h x (List.mem_cons_of_mem c hx))
      simp [escapeChars, hc, hcs]

theorem escapeQuotes_of_not_needsEscape (s : String) (h : ∀ c ∈ s.data, needsEscape c = false) :
    escapeQuotes s = s := by
  unfold escapeQuotes
  rw [escapeChars_of_not_needsEscape s.data h]

theorem HasPrefix_escapeQuotes (k : String) : HasPrefix (escapeQuotes k) "@" = HasPrefix k "@" := by
  unfold HasPrefix escapeQuotes
  cases hd : k.data with
  | nil => simp [escapeChars]
  | cons c cs =>
      by_cases h1 : c = Char.ofNat 92
      · subst h1
        simp [escapeChars, escapeChar, List.isPrefixOf]
      · by_cases h2 : c = Char.ofNat 34
        · subst h2
          simp [escapeChars, escapeChar, List.isPrefixOf]
        · by_cases h3 : c = Char.ofNat 13
          · subst h3
            simp [escapeChars, escapeChar, List.isPrefixOf]
          · by_cases h4 : c = Char.ofNat 10
            · subst h4
              simp [escapeChars, escapeChar, List.isPrefixOf]
            · simp [escapeChars, escapeChar, List.isPrefixOf, h1, h2, h3, h4]

theorem field_names_not_marked {V : Type} (sprint : V → String)
    (APIKey sectionName action : String) (m : ParamMap V) (n value : String)
    (hmem : Part.field n value ∈ fixedFields APIKey sectionName action ++ m.map (entryPart sprint)) :
    HasPrefix n "@" = false := by
  rcases List.mem_append.mp hmem with hfix | hpar
  · simp only [fixedFields, List.mem_cons, Part.field.injEq, List.mem_singleton,
      List.not_mem_nil, or_false] at hfix
    rcases hfix with ⟨h, -⟩ | ⟨h, -⟩ | ⟨h, -⟩ <;> (rw [h]; decide)
  · obtain ⟨e, -, he⟩ := List.mem_map.mp hpar
    unfold entryPart at he
    by_cases hp : HasPrefix e.1 "@" = true
    · simp [hp] at he
    · simp only [hp] at he
      simp only [Bool.false_eq_true, if_false, Part.field.injEq] at he
      rw [← he.1, HasPrefix_escapeQuotes]
      simpa using hp

/-- C5 as stated fails: for the file-marked key `@a`, line feed, `b`, the file part in the
body has the field name and file name `a%0Ab`, not the key with the marker stripped (`a`,
line feed, `b`); no part of the body carries that name. -/
theorem C5_counterexample_escaped_file_name :
    HasPrefix markedKeyWithLineFeed "@" = true ∧
    sliceFrom markedKeyWithLineFeed 1 = keyWithLineFeed ∧
    Do_encode id "key" "databases" "upload" [some [(markedKeyWithLineFeed, "v")]]
      = [Part.field "api_key" "key", Part.field "section" "databases",
         Part.field "action" "upload", Part.file "a%0Ab" "a%0Ab" "v"] ∧
    Part.file keyWithLineFeed keyWithLineFeed "v"
      ∉ Do_encode id "key" "databases" "upload" [some [(markedKeyWithLineFeed, "v")]] := by
  decide

/-- C5 amended: for every parameter map (the first variadic argument) and every entry of it
whose key begins with the file marker `@`, the part that entry contributes to the encoded
body is a file part whose field name and file name are both the key without the marker as
`mime/multipart` escapes it for the header (backslash and double quote get a backslash in
front, carriage return and line feed become `%0D` and `%0A`), hence the key without the marker
itself when it holds none of these four characters, and whose content is the `%v` form of the
value; the entry contributes no other part (the body has exactly one part per entry after the
three fixed fields), and no scalar field of the body has a name that begins with the
marker. -/
theorem C5_file_marked_entry_is_file_part {V : Type} (sprint : V → String)
    (APIKey sectionName action : String) (m : ParamMap V) (rest : List (Option (ParamMap V)))
    (i : Nat) (k : String) (v : V)
    (hi : m[i]? = some (k, v)) (hk : HasPrefix k "@" = true) :
    k.data = '@' :: (sliceFrom k 1).data ∧
    (Do_encode sprint APIKey sectionName action (some m :: rest))[3 + i]?
      = some (Part.file (escapeQuotes (sliceFrom k 1)) (escapeQuotes (sliceFrom k 1))
          (sprint v)) ∧
    ((∀ c ∈ (sliceFrom k 1).data, needsEscape c = false) →
      (Do_encode sprint APIKey sectionName action (some m :: rest))[3 + i]?
        = some (Part.file (sliceFrom k 1) (sliceFrom k 1) (sprint v))) ∧
    (Do_encode sprint APIKey sectionName action (some m :: rest)).length = 3 + m.length ∧
    (∀ n value, Part.field n value ∈ Do_encode sprint APIKey sectionName action (some m :: rest)
      → HasPrefix n "@" = false) := by
  have hget : (Do_encode sprint APIKey sectionName action (some m :: rest))[3 + i]?
      = some (Part.file (escapeQuotes (sliceFrom k 1)) (escapeQuotes (sliceFrom k 1))
          (sprint v)) := by
    rw [Do_encode_eq]
    have h3 : (fixedFields APIKey sectionName action).length ≤ 3 + i := by simp [fixedFields]
    rw [List.getElem?_append_right h3]
    simp [fixedFields, List.getElem?_map, hi, entryPart, hk]
  refine ⟨HasPrefix_at_data k hk, hget, ?_, ?_, ?_⟩
  · intro hplain
    rw [hget, escapeQuotes_of_not_needsEscape _ hplain]
  · rw [Do_encode_eq]
    simp [fixedFields]
    omega
  · intro n value hmem
    rw [Do_encode_eq] at hmem
    exact field_names_not_marked sprint APIKey sectionName action m n value hmem

theorem C5_file_marked_entry_is_file_part_witness :
    (Do_encode id "key" "databases" "upload"
        [some [("database_id", "7"), ("@csvfile", "a,b")]])[3 + 1]?
      = some (Part.file "csvfile" "csvfile" "a,b") ∧
    (∀ n value, Part.field n value ∈
      Do_encode id "key" "databases" "upload" [some [("database_id", "7"), ("@csvfile", "a,b")]]
      → HasPrefix n "@" = false) :=
  have h := C5_file_marked_entry_is_file_part id "key" "databases" "upload"
    [("database_id", "7"), ("@csvfile", "a,b")] [] 1 "@csvfile" "a,b" (by rfl) (by decide)
  ⟨h.2.2.1 (by decide), h.2.2.2.2⟩

theorem entryPart_of_not_marked {V : Type} (sprint : V → String) (m : ParamMap V)
    (hm : ∀ e ∈ m, HasPrefix e.1 "@" = false) :
    m.map (entryPart sprint) = m.map (fun e => Part.field (escapeQuotes e.1) (sprint e.2)) := by
  apply List.map_congr_left
  intro e he
  simp [entryPart, hm e he]

/-- C6 as stated fails: for the unmarked key `a`, line feed, `b`, the scalar field in the body
is named `a%0Ab`, not by the raw key; no field of the body carries the raw key. -/
theorem C6_counterexample_escaped_field_name :
    HasPrefix keyWithLineFeed "@" = false ∧
    Do_encode id "key" "users" "create" [some [(keyWithLineFeed, "v")]]
      = [Part.field "api_key" "key", Part.field "section" "users",
         Part.field "action" "create", Part.field "a%0Ab" "v"] ∧
    Part.field keyWithLineFeed "v"
      ∉ Do_encode id "key" "users" "create" [some [(keyWithLineFeed, "v")]] := by
  decide

/-- C6 amended: for every credential, section, action and every parameter map none of whose
keys begins with `@`, the encoded body is the three fixed scalar fields `api_key`, `section`,
`action`, in that order and with the given values, followed by one scalar field per parameter,
named by its key as `mime/multipart` escapes it for the header (backslash and double quote get
a backslash in front, carriage return and line feed become `%0D` and `%0A`) and valued by the
`%v` form: `3 + len(parameters)` parts, none of them a file part. When no key holds one of
these four characters every field is named by its raw key. For the empty map the body is the
three fixed fields alone. -/
theorem C6_unmarked_map_gives_scalar_fields {V : Type} (sprint : V → String)
    (APIKey sectionName action : String) (m : ParamMap V) (rest : List (Option (ParamMap V)))
    (hm : ∀ e ∈ m, HasPrefix e.1 "@" = false) :
    Do_encode sprint APIKey sectionName action (some m :: rest)
      = [Part.field "api_key" APIKey, Part.field "section" sectionName,
          Part.field "action" action]
        ++ m.map (fun e => Part.field (escapeQuotes e.1) (sprint e.2)) ∧
    ((∀ e ∈ m, ∀ c ∈ e.1.data, needsEscape c = false) →
      Do_encode sprint APIKey sectionName action (some m :: rest)
        = [Part.field "api_key" APIKey, Part.field "section" sectionName,
            Part.field "action" action] ++ m.map (fun e => Part.field e.1 (sprint e.2))) ∧
    (Do_encode sprint APIKey sectionName action (some m :: rest)).length = 3 + m.length ∧
    (∀ p ∈ Do_encode sprint APIKey sectionName action (some m :: rest), p.isFile = false) ∧
    Do_encode sprint APIKey sectionName action (some [] :: rest)
      = [Part.field "api_key" APIKey, Part.field "section" sectionName,
          Part.field "action" action] := by
  have heq : Do_encode sprint APIKey sectionName action (some m :: rest)
      = [Part.field "api_key" APIKey, Part.field "section" sectionName,
          Part.field "action" action]
        ++ m.map (fun e => Part.field (escapeQuotes e.1) (sprint e.2)) := by
    rw [Do_encode_eq, entryPart_of_not_marked sprint m hm]
    rfl
  refine ⟨heq, ?_, ?_, ?_, ?_⟩
  · intro hplain
    rw [heq]
    congr 1
    apply List.map_congr_left
    intro e he
    rw [escapeQuotes_of_not_needsEscape e.1 (hplain e he)]
  · rw [heq]
    simp
    omega
  · intro p hp
    rw [heq] at hp
    rcases List.mem_append.mp hp with h | h
    · simp only [List.mem_cons, List.mem_singleton, List.not_mem_nil, or_false] at h
      rcases h with h | h | h <;> simp [h, Part.isFile]
    · obtain ⟨e, -, he⟩ := List.mem_map.mp h
      simp [← he, Part.isFile]
  · rw [Do_encode_eq]
    rfl

theorem C6_unmarked_map_gives_scalar_fields_witness :
    Do_encode id "key" "users" "create" [some [("username", "ann"), ("password", "pw")]]
      = [Part.field "api_key" "key", Part.field "section" "users", Part.field "action" "create",
         Part.field "username" "ann", Part.field "password" "pw"] :=
  (C6_unmarked_map_gives_scalar_fields id "key" "users" "create"
    [("username", "ann"), ("password", "pw")] [] (by decide)).2.1 (by decide)

/-- C10: `Client.Do` encodes the parameters of the first variadic map and of no other: for
every list of maps the encoded parts are those of the list cut down to its first element; when
the first map is not nil they are the three fixed fields followed, entry by entry, by the part
of each entry of that map (a file part for a key that begins with `@`, a scalar field
otherwise, names as `mime/multipart` escapes them); a call with no map, with a nil first map
or with an empty first map encodes exactly the three fixed fields. -/
theorem C10_only_first_map_is_encoded {V : Type} (sprint : V → String)
    (APIKey sectionName action : String) (m1 : Option (ParamMap V))
    (rest : List (Option (ParamMap V))) :
    Do_encode sprint APIKey sectionName action (m1 :: rest)
      = Do_encode sprint APIKey sectionName action [m1] ∧
    (∀ m : ParamMap V, m1 = some m →
      Do_encode sprint APIKey sectionName action (m1 :: rest)
        = [Part.field "api_key" APIKey, Part.field "section" sectionName,
            Part.field "action" action]
          ++ m.map (fun e =>
              if HasPrefix e.1 "@" = true then
                Part.file (escapeQuotes (sliceFrom e.1 1)) (escapeQuotes (sliceFrom e.1 1))
                  (sprint e.2)
              else Part.field (escapeQuotes e.1) (sprint e.2))) ∧
    Do_encode sprint APIKey sectionName action ([] : List (Option (ParamMap V)))
      = [Part.field "api_key" APIKey, Part.field "section" sectionName,
          Part.field "action" action] ∧
    Do_encode sprint APIKey sectionName action (none :: rest)
      = [Part.field "api_key" APIKey, Part.field "section" sectionName,
          Part.field "action" action] ∧
    Do_encode sprint APIKey sectionName action (some [] :: rest)
      = [Part.field "api_key" APIKey, Part.field "section" sectionName,
          Part.field "action" action] := by
  refine ⟨?_, ?_, Do_encode_nil sprint APIKey sectionName action,
    Do_encode_nil_map sprint APIKey sectionName action rest, ?_⟩
  · cases m1 with
    | none => rw [Do_encode_nil_map, Do_encode_nil_map]
    | some m => rw [Do_encode_eq, Do_encode_eq]
  · intro m hm1
    rw [hm1, Do_encode_eq]
    rfl
  · rw [Do_encode_eq]
    rfl

theorem C10_only_first_map_is_encoded_witness :
    Do_encode id "key" "scans" "retrieve"
        [some [("service_id", "4"), ("@file", "x")], some [("limit", "9")]]
      = [Part.field "api_key" "key", Part.field "section" "scans",
         Part.field "action" "retrieve", Part.field "service_id" "4",
         Part.file "file" "file" "x"] :=
  ((C10_only_first_map_is_encoded id "key" "scans" "retrieve"
      (some [("service_id", "4"), ("@file", "x")]) [some [("limit", "9")]]).2.1
    [("service_id", "4"), ("@file", "x")] rfl).trans (by decide)

/-! ## Theorems: response decoding -/

theorem Do_decode_envelope_error {T : Type} (unmarshal : Body → T → T × Option GoError)
    (b : Body) (o : Option T) (err : GoError) (h : unmarshalResponse b = Except.error err) :
    Do_decode unmarshal b o = (o, Outcome.returned (some err)) := by
  simp [Do_decode, h]

theorem Do_decode_failure_status {T : Type} (unmarshal : Body → T → T × Option GoError)
    (b : Body) (o : Option T) (r : Response) (h : unmarshalResponse b = Except.ok r)
    (hs : r.Status ≠ 1) :
    Do_decode unmarshal b o =
      (o, match r.Error with
          | none => Outcome.nilDereference
          | some e => Outcome.returned (some (Errorf e.Message e.Code))) := by
  simp only [Do_decode, h, hs, ne_eq, not_false_eq_true, if_true]
  cases r.Error <;> rfl

theorem Do_decode_success_status {T : Type} (unmarshal : Body → T → T × Option GoError)
    (b : Body) (o : Option T) (r : Response) (h : unmarshalResponse b = Except.ok r)
    (hs : r.Status = 1) :
    Do_decode unmarshal b o =
      match o with
      | none => (none, Outcome.returned none)
      | some t => (some (unmarshal b t).1, Outcome.returned (unmarshal b t).2) := by
  simp only [Do_decode, h, hs, ne_eq, not_true_eq_false, if_false]

theorem unmarshalResponse_bodyStatus0 :
    unmarshalResponse bodyStatus0 = Except.ok ⟨0, none⟩ := by rfl

theorem unmarshalResponse_bodyStatus1 :
    unmarshalResponse bodyStatus1 = Except.ok ⟨1, none⟩ := by rfl

theorem unmarshalResponse_bodyInvalidKey :
    unmarshalResponse bodyInvalidKey = Except.ok ⟨0, some ⟨42, "Invalid key"⟩⟩ := by rfl

theorem unmarshalResponse_bodyStatus1WithError :
    unmarshalResponse bodyStatus1WithError = Except.ok ⟨1, some ⟨3, "stale"⟩⟩ := by rfl

/-- C1 (the code at the failing input): for the body `<xml><status>0</status></xml>` the
envelope decodes with status 0 and a nil `Error` pointer, and the decoding step of `Client.Do`
ends in a nil pointer dereference for every target; it does not return the error
`" [Error #0]"`, nor any other error value. -/
theorem C1_absent_error_element_nil_dereference {T : Type}
    (unmarshal : Body → T → T × Option GoError) (o : Option T) :
    unmarshalResponse bodyStatus0 = Except.ok ⟨0, none⟩ ∧
    Do_decode unmarshal bodyStatus0 o = (o, Outcome.nilDereference) ∧
    (Do_decode unmarshal bodyStatus0 o).2 ≠ Outcome.returned (some (Errorf "" 0)) ∧
    (∀ err, (Do_decode unmarshal bodyStatus0 o).2 ≠ Outcome.returned err) := by
  have h : unmarshalResponse bodyStatus0 = Except.ok ⟨0, none⟩ := by rfl
  have hd : Do_decode unmarshal bodyStatus0 o = (o, Outcome.nilDereference) := by
    rw [Do_decode_failure_status unmarshal bodyStatus0 o ⟨0, none⟩ h (by decide)]
  refine ⟨h, hd, ?_, ?_⟩
  · rw [hd]
    simp
  · intro err
    rw [hd]
    simp

/-- C2: for every response whose envelope decodes with a status other than 1 and an error
element of code `c` and message `m`, and for every target (nil or a typed result), the
decoding step of `Client.Do` returns the error whose text is `m`, then ` [Error #`, the
decimal form of `c`, and `]`. -/
theorem C2_failure_status_returns_formatted_error {T : Type}
    (unmarshal : Body → T → T × Option GoError) (b : Body) (o : Option T)
    (s c : Int) (m : String)
    (h : unmarshalResponse b = Except.ok ⟨s, some ⟨c, m⟩⟩) (hs : s ≠ 1) :
    (Do_decode unmarshal b o).2
      = Outcome.returned (some (GoError.errorf (m ++ " [Error #" ++ fmtD c ++ "]"))) := by
  rw [Do_decode_failure_status unmarshal b o _ h hs]
  rfl

theorem C2_failure_status_returns_formatted_error_witness :
    (Do_decode unmarshalResponseCreate bodyInvalidKey (some ⟨⟨0, none⟩, 0⟩)).2
      = Outcome.returned (some (GoError.errorf "Invalid key [Error #42]")) ∧
    (Do_decode unmarshalResponseCreate bodyInvalidKey none).2
      = Outcome.returned (some (GoError.errorf "Invalid key [Error #42]")) :=
  ⟨C2_failure_status_returns_formatted_error unmarshalResponseCreate bodyInvalidKey
      (some ⟨⟨0, none⟩, 0⟩) 0 42 "Invalid key" (by rfl) (by decide),
   C2_failure_status_returns_formatted_error unmarshalResponseCreate bodyInvalidKey
      none 0 42 "Invalid key" (by rfl) (by decide)⟩

theorem storeErrorAttrs_of_ok (attrs : List (String × String)) (e e1 e2 : ErrorInfo)
    (h : unmarshalErrorAttrs e attrs = Except.ok e1) :
    ∃ e3, storeErrorAttrs e2 attrs = (e3, none) := by
  induction attrs generalizing e e2 with
  | nil => exact ⟨e2, rfl⟩
  | cons a rest ih =>
      obtain ⟨n, v⟩ := a
      by_cases hn : n = "code"
      · cases hc : copyValueInt v with
        | error err => simp [unmarshalErrorAttrs, hn, hc] at h
        | ok c =>
            simp only [unmarshalErrorAttrs, hn, hc, if_true] at h
            obtain ⟨e3, h3⟩ := ih { e with Code := c } { e2 with Code := c } h
            exact ⟨e3, by simp [storeErrorAttrs, hn, hc, h3]⟩
      · simp only [unmarshalErrorAttrs, hn, if_false] at h
        obtain ⟨e3, h3⟩ := ih e e2 h
        exact ⟨e3, by simp [storeErrorAttrs, hn, h3]⟩

theorem unmarshalResponseCreateChild_of_ok (c : XmlNode) (hc : c.isIdElement = false)
    (r r1 : Response) (h : unmarshalResponseChild r c = Except.ok r1) (t : ResponseCreate) :
    ∃ r2, unmarshalResponseCreateChild t c = (⟨r2, t.ID⟩, none) ∧
      (r2.Status = r1.Status ∨ (r1.Status = r.Status ∧ r2.Status = t.toResponse.Status)) := by
  cases c with
  | chardata text =>
      simp only [unmarshalResponseChild, Except.ok.injEq] at h
      exact ⟨t.toResponse, rfl, Or.inr ⟨by rw [h], rfl⟩⟩
  | element name attrs children =>
      have hid : ¬ name = "id" := by simpa [XmlNode.isIdElement] using hc
      by_cases hst : name = "status"
      · cases hv : copyValueInt (directText children) with
        | error err => simp [unmarshalResponseChild, hst, hv] at h
        | ok st =>
            simp only [unmarshalResponseChild, hst, hv, if_true, Except.ok.injEq] at h
            refine ⟨{ t.toResponse with Status := st }, ?_, Or.inl ?_⟩
            · simp [unmarshalResponseCreateChild, hid, hst, hv]
            · rw [← h]
      · by_cases her : name = "error"
        · simp only [unmarshalResponseChild, hst, if_false] at h
          simp only [her, if_true] at h
          cases ha : unmarshalErrorAttrs (r.Error.getD ⟨0, ""⟩) attrs with
          | error err => simp [unmarshalErrorElement, ha] at h
          | ok e1 =>
              simp only [unmarshalErrorElement, ha, Except.ok.injEq] at h
              obtain ⟨e3, h3⟩ := storeErrorAttrs_of_ok attrs _ e1
                (t.toResponse.Error.getD ⟨0, ""⟩) ha
              refine ⟨{ t.toResponse with
                Error := some { e3 with Message := directText children } }, ?_, Or.inr ⟨?_, rfl⟩⟩
              · simp [unmarshalResponseCreateChild, hid, hst, her, storeErrorElement, h3]
              · rw [← h]
        · simp only [unmarshalResponseChild, hst, her, if_false, Except.ok.injEq] at h
          refine ⟨t.toResponse, ?_, Or.inr ⟨by rw [h], rfl⟩⟩
          simp [unmarshalResponseCreateChild, hid, hst, her]

theorem unmarshalResponseCreateChildren_of_ok (cs : List XmlNode)
    (hcs : cs.any XmlNode.isIdElement = false) (r r1 : Response)
    (h : unmarshalResponseChildren r cs = Except.ok r1) (t : ResponseCreate) :
    ∃ r2, unmarshalResponseCreateChildren t cs = (⟨r2, t.ID⟩, none) ∧
      (r2.Status = r1.Status ∨ (r1.Status = r.Status ∧ r2.Status = t.toResponse.Status)) := by
  induction cs generalizing r t with
  | nil =>
      simp only [unmarshalResponseChildren, Except.ok.injEq] at h
      exact ⟨t.toResponse, rfl, Or.inr ⟨by rw [h], rfl⟩⟩
  | cons c rest ih =>
      simp only [List.any_cons, Bool.or_eq_false_iff] at hcs
      cases hc : unmarshalResponseChild r c with
      | error err => simp [unmarshalResponseChildren, hc] at h
      | ok ra =>
          simp only [unmarshalResponseChildren, hc] at h
          obtain ⟨rb, hb, hsb⟩ := unmarshalResponseCreateChild_of_ok c hcs.1 r ra hc t
          obtain ⟨r2, h2, hs2⟩ := ih hcs.2 ra h ⟨rb, t.ID⟩
          refine ⟨r2, ?_, ?_⟩
          · simp [unmarshalResponseCreateChildren, hb, h2]
          · simp only at hs2
            rcases hs2 with e | ⟨e1, e2⟩
            · exact Or.inl e
            · rcases hsb with e3 | ⟨e3, e4⟩
              · exact Or.inl (by rw [e2, e1, e3])
              · exact Or.inr ⟨by rw [e1, e3], by rw [e2, e4]⟩

/-- C4 as stated fails: the body `<xml><status>1</status></xml>` has no `id` element, yet
decoding it into a `ResponseCreate` target returns nil (success), leaving `ID` as it was. -/
theorem C4_counterexample_missing_id_is_success :
    bodyStatus1.hasIdElement = false ∧
    Do_decode unmarshalResponseCreate bodyStatus1 (some ⟨⟨0, none⟩, 5⟩)
      = (some ⟨⟨1, none⟩, 5⟩, Outcome.returned none) := by
  decide

/-- C4 amended: for every response whose envelope decodes with status 1 and every non-nil
target, the decoding step of `Client.Do` returns exactly what the typed decode
(`xml.Unmarshal` of the same bytes into the target) returns and leaves the target as that
decode leaves it: an error if and only if the typed decode reports one. A body that lacks the
element of a field of the target shape is not a decode error: for every `ResponseCreate`
target and every such body without an `id` element the call returns nil, stores status 1 in
the target and leaves `ID` as it was. -/
theorem C4_success_status_returns_typed_decode_result {T : Type}
    (unmarshal : Body → T → T × Option GoError) (b : Body) (t : T) (r : Response)
    (h : unmarshalResponse b = Except.ok r) (hs : r.Status = 1) :
    Do_decode unmarshal b (some t)
      = (some (unmarshal b t).1, Outcome.returned (unmarshal b t).2) ∧
    (∀ err, (Do_decode unmarshal b (some t)).2 = Outcome.returned (some err)
      ↔ (unmarshal b t).2 = some err) ∧
    ((Do_decode unmarshal b (some t)).2 = Outcome.returned none ↔ (unmarshal b t).2 = none) ∧
    (∀ tc : ResponseCreate, b.hasIdElement = false →
      ∃ r2 : Response, r2.Status = 1 ∧
        Do_decode unmarshalResponseCreate b (some tc)
          = (some ⟨r2, tc.ID⟩, Outcome.returned none)) := by
  have hd := Do_decode_success_status unmarshal b (some t) r h hs
  simp only at hd
  refine ⟨hd, ?_, ?_, ?_⟩
  · rw [hd]
    simp
  · rw [hd]
    simp
  · intro tc hid
    have hdc := Do_decode_success_status unmarshalResponseCreate b (some tc) r h hs
    simp only at hdc
    cases b with
    | malformed => simp [unmarshalResponse] at h
    | document name attrs children =>
        simp only [unmarshalResponse] at h
        simp only [Body.hasIdElement] at hid
        obtain ⟨r2, h2, hs2⟩ :=
          unmarshalResponseCreateChildren_of_ok children hid ⟨0, none⟩ r h tc
        have hst : r2.Status = 1 := by
          rcases hs2 with e | ⟨e, -⟩
          · rw [e, hs]
          · rw [hs] at e
            simp at e
        refine ⟨r2, hst, ?_⟩
        rw [hdc]
        simp [unmarshalResponseCreate, h2]

theorem C4_success_status_returns_typed_decode_result_witness :
    Do_decode unmarshalResponseCreate bodyStatus1 (some ⟨⟨0, none⟩, 5⟩)
      = (some ⟨⟨1, none⟩, 5⟩, Outcome.returned none) :=
  (C4_success_status_returns_typed_decode_result unmarshalResponseCreate bodyStatus1
    ⟨⟨0, none⟩, 5⟩ ⟨1, none⟩ (by rfl) (by decide)).1.trans (by decide)

/-- C8: for every response whose envelope decodes with status 1, whatever else the body holds,
the decoding step of `Client.Do` called with a nil target returns nil (success); the typed
decode plays no part in it. -/
theorem C8_nil_target_success {T : Type} (unmarshal : Body → T → T × Option GoError)
    (b : Body) (r : Response) (h : unmarshalResponse b = Except.ok r) (hs : r.Status = 1) :
    Do_decode unmarshal b none = (none, Outcome.returned none) := by
  rw [Do_decode_success_status unmarshal b none r h hs]

theorem C8_nil_target_success_witness :
    Do_decode unmarshalResponseCreate bodyStatus1WithError none
      = (none, Outcome.returned none) :=
  C8_nil_target_success unmarshalResponseCreate bodyStatus1WithError ⟨1, some ⟨3, "stale"⟩⟩
    (by rfl) (by decide)

/-- C9: for every response and every target, if the envelope does not decode, or decodes with
a status other than 1, then the decoding step of `Client.Do` leaves the target exactly as the
caller passed it and runs the same whatever the typed decode would do (it is never
attempted). -/
theorem C9_target_untouched_unless_status_1 {T : Type}
    (unmarshal : Body → T → T × Option GoError) (b : Body) (o : Option T)
    (h : ∀ r, unmarshalResponse b = Except.ok r → r.Status ≠ 1) :
    (Do_decode unmarshal b o).1 = o ∧
    (∀ unmarshal2 : Body → T → T × Option GoError,
      Do_decode unmarshal2 b o = Do_decode unmarshal b o) := by
  cases hb : unmarshalResponse b with
  | error err =>
      refine ⟨by rw [Do_decode_envelope_error unmarshal b o err hb], ?_⟩
      intro u2
      rw [Do_decode_envelope_error unmarshal b o err hb,
        Do_decode_envelope_error u2 b o err hb]
  | ok r =>
      have hs := h r hb
      refine ⟨by rw [Do_decode_failure_status unmarshal b o r hb hs], ?_⟩
      intro u2
      rw [Do_decode_failure_status unmarshal b o r hb hs,
        Do_decode_failure_status u2 b o r hb hs]

theorem C9_target_untouched_unless_status_1_witness :
    (Do_decode unmarshalResponseCreate bodyInvalidKey (some ⟨⟨7, none⟩, 9⟩)).1
      = some ⟨⟨7, none⟩, 9⟩ ∧
    (Do_decode unmarshalResponseCreate Body.malformed (some ⟨⟨7, none⟩, 9⟩)).1
      = some ⟨⟨7, none⟩, 9⟩ :=
  ⟨(C9_target_untouched_unless_status_1 unmarshalResponseCreate bodyInvalidKey
      (some ⟨⟨7, none⟩, 9⟩)
      (fun r h => by
        rw [unmarshalResponse_bodyInvalidKey] at h
        cases h
        decide)).1,
   (C9_target_untouched_unless_status_1 unmarshalResponseCreate Body.malformed
      (some ⟨⟨7, none⟩, 9⟩)
      (fun r h => by
        simp [unmarshalResponse] at h)).1⟩

/-! ## Theorems: `time.Date` and the accessors of `time.Time` -/

theorem u64_id (x : Int) (h0 : 0 ≤ x) (h1 : x < 18446744073709551616) : u64 x = x := by
  unfold u64
  omega

theorem i64_id (x : Int) (h0 : -9223372036854775808 ≤ x) (h1 : x < 9223372036854775808) :
    i64 x = x := by
  unfold i64
  omega

theorem norm_id (hi lo base : Int) (h0 : 0 ≤ lo) (h1 : lo < base) : norm hi lo base = (hi, lo) := by
  unfold norm
  have h2 : ¬ lo < 0 := by omega
  have h3 : ¬ lo ≥ base := by omega
  simp [h2, h3]

theorem daysSinceEpoch_eq (year : Int) (h0 : 0 ≤ year) (h1 : year ≤ 9999) :
    daysSinceEpoch year
      = 146097 * ((year + 292277022399) / 400) + 36524 * ((year + 292277022399) % 400 / 100)
        + 1461 * ((year + 292277022399) % 100 / 4) + 365 * ((year + 292277022399) % 4) := by
  have e0 : u64 (i64 (year - absoluteZeroYear)) = year + 292277022399 := by
    unfold absoluteZeroYear
    rw [i64_id _ (by omega) (by omega), u64_id _ (by omega) (by omega)]
    omega
  unfold daysSinceEpoch
  simp only [e0]
  have hY0 : 292277022399 ≤ year + 292277022399 := by omega
  have hY1 : year + 292277022399 ≤ 292277032398 := by omega
  generalize year + 292277022399 = Y at hY0 hY1 ⊢
  have a1 : u64 (400 * (Y / 400)) = 400 * (Y / 400) := u64_id _ (by omega) (by omega)
  have a2 : u64 (Y - 400 * (Y / 400)) = Y % 400 := by
    rw [u64_id _ (by omega) (by omega)]; omega
  have a3 : u64 (146097 * (Y / 400)) = 146097 * (Y / 400) := u64_id _ (by omega) (by omega)
  simp only [a1, a2, a3]
  have b1 : u64 (100 * (Y % 400 / 100)) = 100 * (Y % 400 / 100) :=
    u64_id _ (by omega) (by omega)
  have b2 : u64 (Y % 400 - 100 * (Y % 400 / 100)) = Y % 100 := by
    rw [u64_id _ (by omega) (by omega)]; omega
  have b3 : u64 (36524 * (Y % 400 / 100)) = 36524 * (Y % 400 / 100) :=
    u64_id _ (by omega) (by omega)
  have b4 : u64 (146097 * (Y / 400) + 36524 * (Y % 400 / 100))
      = 146097 * (Y / 400) + 36524 * (Y % 400 / 100) := u64_id _ (by omega) (by omega)
  simp only [b1, b2, b3, b4]
  have c1 : u64 (4 * (Y % 100 / 4)) = 4 * (Y % 100 / 4) := u64_id _ (by omega) (by omega)
  have c2 : u64 (Y % 100 - 4 * (Y % 100 / 4)) = Y % 4 := by
    rw [u64_id _ (by omega) (by omega)]; omega
  have c3 : u64 (1461 * (Y % 100 / 4)) = 1461 * (Y % 100 / 4) := u64_id _ (by omega) (by omega)
  have c4 : u64 (146097 * (Y / 400) + 36524 * (Y % 400 / 100) + 1461 * (Y % 100 / 4))
      = 146097 * (Y / 400) + 36524 * (Y % 400 / 100) + 1461 * (Y % 100 / 4) :=
    u64_id _ (by omega) (by omega)
  simp only [c1, c2, c3, c4]
  have d1 : u64 (365 * (Y % 4)) = 365 * (Y % 4) := u64_id _ (by omega) (by omega)
  rw [d1]
  exact u64_id _ (by omega) (by omega)
theorem daysBefore_bounds (i : Int) (h0 : 0 ≤ i) (h1 : i ≤ 11) :
    0 ≤ daysBefore i ∧ daysBefore i ≤ 334 := by
  have h : i = 0 ∨ i = 1 ∨ i = 2 ∨ i = 3 ∨ i = 4 ∨ i = 5 ∨ i = 6 ∨ i = 7 ∨ i = 8 ∨ i = 9
      ∨ i = 10 ∨ i = 11 := by omega
  rcases h with h | h | h | h | h | h | h | h | h | h | h | h <;> subst h <;> decide

theorem abs_roundtrip (a nsec : Int) (h0 : 9223371966548102400 ≤ a)
    (h1 : a ≤ 9223372282200000000) :
    (unixTime (i64 (i64 a + (absoluteToInternal + internalToUnix))) nsec).abs = a := by
  unfold unixTime Time.abs absoluteToInternal internalToUnix unixToInternal internalToAbsolute
    absoluteToInternal
  simp only []
  have e1 : i64 (i64 a + (-9223371966579724800 + -62135596800)) = a - 9223372028715321600 := by
    unfold i64; omega
  rw [e1]
  have e2 : i64 (a - 9223372028715321600 + 62135596800) = a - 9223371966579724800 := by
    unfold i64; omega
  rw [e2]
  have e3 : i64 (a - 9223371966579724800 + -62135596800) = a - 9223372028715321600 := by
    unfold i64; omega
  rw [e3]
  have e4 : i64 (a - 9223372028715321600 + (62135596800 + - -9223371966579724800)) = i64 a := by
    unfold i64; omega
  rw [e4]
  unfold u64 i64
  omega
theorem daysSinceEpoch_bounds (year : Int) (h0 : 0 ≤ year) (h1 : year ≤ 9999) :
    106751990353566 ≤ daysSinceEpoch year ∧ daysSinceEpoch year ≤ 106751994005626 := by
  rw [daysSinceEpoch_eq year h0 h1]
  omega

theorem isLeap_iff (year : Int) :
    isLeap year = true ↔ (year % 4 = 0 ∧ (year % 100 ≠ 0 ∨ year % 400 = 0)) := by
  simp [isLeap]

theorem Date_eq (year month day hour min sec nsec : Int)
    (hy0 : 0 ≤ year) (hy1 : year ≤ 9999) (hm0 : 1 ≤ month) (hm1 : month ≤ 12)
    (hd0 : 1 ≤ day) (hd1 : day ≤ 31)
    (hh0 : 0 ≤ hour) (hh1 : hour < 24) (hi0 : 0 ≤ min) (hi1 : min < 60)
    (hs0 : 0 ≤ sec) (hs1 : sec < 60) (hn0 : 0 ≤ nsec) (hn1 : nsec < 1000000000) :
    Date year month day hour min sec nsec
      = unixTime (i64 (i64 ((daysSinceEpoch year + daysBefore (month - 1)
            + (if isLeap year && decide (month ≥ 3) then 1 else 0) + (day - 1)) * 86400
            + (hour * 3600 + min * 60 + sec)) + (absoluteToInternal + internalToUnix))) nsec := by
  unfold Date
  simp only [norm_id year (month - 1) 12 (by omega) (by omega),
    norm_id sec nsec 1000000000 hn0 hn1, norm_id min sec 60 hs0 hs1,
    norm_id hour min 60 hi0 hi1, norm_id day hour 24 hh0 hh1, Int.sub_add_cancel]
  obtain ⟨hE0, hE1⟩ := daysSinceEpoch_bounds year hy0 hy1
  obtain ⟨hb0, hb1⟩ := daysBefore_bounds (month - 1) (by omega) (by omega)
  generalize daysSinceEpoch year = E at hE0 hE1 ⊢
  generalize daysBefore (month - 1) = db at hb0 hb1 ⊢
  have a1 : u64 db = db := u64_id _ (by omega) (by omega)
  have a2 : u64 (E + db) = E + db := u64_id _ (by omega) (by omega)
  simp only [a1, a2]
  have a3 : (if (isLeap year && decide (month ≥ 3)) = true then u64 (E + db + 1) else E + db)
      = E + db + (if (isLeap year && decide (month ≥ 3)) = true then 1 else 0) := by
    split_ifs
    · exact u64_id _ (by omega) (by omega)
    · omega
  rw [a3]
  have hl : (0:Int) ≤ (if (isLeap year && decide (month ≥ 3)) = true then 1 else 0) ∧
      (if (isLeap year && decide (month ≥ 3)) = true then (1:Int) else 0) ≤ 1 := by
    split_ifs <;> omega
  generalize (if (isLeap year && decide (month ≥ 3)) = true then (1:Int) else 0) = L at hl ⊢
  have a4 : u64 (day - 1) = day - 1 := u64_id _ (by omega) (by omega)
  have a5 : u64 (E + db + L + (day - 1)) = E + db + L + (day - 1) :=
    u64_id _ (by omega) (by omega)
  simp only [a4, a5]
  have a6 : u64 ((E + db + L + (day - 1)) * 86400) = (E + db + L + (day - 1)) * 86400 :=
    u64_id _ (by omega) (by omega)
  have a7 : u64 (hour * 3600 + min * 60 + sec) = hour * 3600 + min * 60 + sec :=
    u64_id _ (by omega) (by omega)
  simp only [a6, a7]
  rw [u64_id _ (by omega) (by omega)]
theorem cycles_div (q a b c yd : Int) (ha0 : 0 ≤ a) (ha1 : a ≤ 3)
    (hb0 : 0 ≤ b) (hb1 : b ≤ 24) (hc0 : 0 ≤ c) (hc1 : c ≤ 3) (hyd0 : 0 ≤ yd)
    (hyd1 : yd ≤ 364 ∨ (yd = 365 ∧ c = 3 ∧ (b ≠ 24 ∨ a = 3))) :
    (146097 * q + 36524 * a + 1461 * b + 365 * c + yd) / 146097 = q ∧
    (36524 * a + 1461 * b + 365 * c + yd) / 36524
      - (36524 * a + 1461 * b + 365 * c + yd) / 36524 / 4 = a ∧
    (1461 * b + 365 * c + yd) / 1461 = b ∧
    (365 * c + yd) / 365 - (365 * c + yd) / 365 / 4 = c := by
  refine ⟨?_, ?_, ?_, ?_⟩
  · omega
  · have h : (36524 * a + 1461 * b + 365 * c + yd) / 36524 = a ∨
        ((36524 * a + 1461 * b + 365 * c + yd) / 36524 = 4 ∧ a = 3) := by omega
    omega
  · omega
  · have h : (365 * c + yd) / 365 = c ∨ ((365 * c + yd) / 365 = 4 ∧ c = 3) := by omega
    omega
theorem absDate_year_part (year yd tod : Int) (hy0 : 0 ≤ year) (hy1 : year ≤ 9999)
    (hyd0 : 0 ≤ yd) (hyd1 : yd ≤ 364 ∨ (yd = 365 ∧ isLeap year = true))
    (ht0 : 0 ≤ tod) (ht1 : tod < 86400) :
    absDate ((daysSinceEpoch year + yd) * 86400 + tod)
      = (if (isLeap year && decide (yd = 31 + 29 - 1)) = true then (year, 2, 29)
        else
          if (if (isLeap year && decide (yd > 31 + 29 - 1)) = true then yd - 1 else yd)
              ≥ daysBefore ((if (isLeap year && decide (yd > 31 + 29 - 1)) = true
                then yd - 1 else yd) / 31 + 1) then
            (year,
              (if (isLeap year && decide (yd > 31 + 29 - 1)) = true then yd - 1 else yd) / 31
                + 1 + 1,
              (if (isLeap year && decide (yd > 31 + 29 - 1)) = true then yd - 1 else yd)
              - daysBefore ((if (isLeap year && decide (yd > 31 + 29 - 1)) = true
                then yd - 1 else yd) / 31 + 1) + 1)
          else
            (year,
              (if (isLeap year && decide (yd > 31 + 29 - 1)) = true then yd - 1 else yd) / 31
                + 1,
              (if (isLeap year && decide (yd > 31 + 29 - 1)) = true then yd - 1 else yd)
              - daysBefore ((if (isLeap year && decide (yd > 31 + 29 - 1)) = true
                then yd - 1 else yd) / 31) + 1)) := by
  rw [daysSinceEpoch_eq year hy0 hy1]
  have hyd2 : yd ≤ 364 ∨ (yd = 365 ∧ (year + 292277022399) % 4 = 3 ∧
      ((year + 292277022399) % 100 / 4 ≠ 24 ∨ (year + 292277022399) % 400 / 100 = 3)) := by
    rcases hyd1 with h | ⟨h, hl⟩
    · exact Or.inl h
    · rw [isLeap_iff] at hl
      right
      omega
  obtain ⟨q, hq⟩ : ∃ q, q = (year + 292277022399) / 400 := ⟨_, rfl⟩
  obtain ⟨a, ha⟩ : ∃ a, a = (year + 292277022399) % 400 / 100 := ⟨_, rfl⟩
  obtain ⟨b, hb⟩ : ∃ b, b = (year + 292277022399) % 100 / 4 := ⟨_, rfl⟩
  obtain ⟨c, hc⟩ : ∃ c, c = (year + 292277022399) % 4 := ⟨_, rfl⟩
  have hdec : 400 * q + 100 * a + 4 * b + c = year + 292277022399 := by omega
  rw [← hq, ← ha, ← hb, ← hc]
  have hyd3 : yd ≤ 364 ∨ (yd = 365 ∧ c = 3 ∧ (b ≠ 24 ∨ a = 3)) := by omega
  obtain ⟨s1, s3, s5, s7⟩ := cycles_div q a b c yd (by omega) (by omega) (by omega) (by omega)
    (by omega) (by omega) hyd0 hyd3
  have s0 : ((146097 * q + 36524 * a + 1461 * b + 365 * c + yd) * 86400 + tod) / 86400
      = 146097 * q + 36524 * a + 1461 * b + 365 * c + yd := by omega
  have s2 : 146097 * q + 36524 * a + 1461 * b + 365 * c + yd - 146097 * q
      = 36524 * a + 1461 * b + 365 * c + yd := by omega
  have s4 : 36524 * a + 1461 * b + 365 * c + yd - 36524 * a = 1461 * b + 365 * c + yd := by
    omega
  have s6 : 1461 * b + 365 * c + yd - 1461 * b = 365 * c + yd := by omega
  have s8 : 365 * c + yd - 365 * c = yd := by omega
  have s10 : i64 (i64 (400 * q + 100 * a + 4 * b + c) + absoluteZeroYear) = year := by
    unfold absoluteZeroYear
    rw [hdec, i64_id (year + 292277022399) (by omega) (by omega),
      i64_id _ (by omega) (by omega)]
    omega
  unfold absDate
  simp only [s0, s1, s2, s3, s4, s5, s6, s7, s8, s10]
theorem daysBefore_lit :
    daysBefore 0 = 0 ∧ daysBefore 1 = 31 ∧ daysBefore 2 = 59 ∧ daysBefore 3 = 90 ∧
    daysBefore 4 = 120 ∧ daysBefore 5 = 151 ∧ daysBefore 6 = 181 ∧ daysBefore 7 = 212 ∧
    daysBefore 8 = 243 ∧ daysBefore 9 = 273 ∧ daysBefore 10 = 304 ∧ daysBefore 11 = 334 ∧
    daysBefore 12 = 365 := by decide

theorem yday_tail (year month day : Int) (leap : Bool) (hm0 : 1 ≤ month) (hm1 : month ≤ 12)
    (hd0 : 1 ≤ day)
    (hd1 : day ≤ (if (decide (month = 2) && leap) = true then 29
      else daysBefore month - daysBefore (month - 1)))
    (yd : Int)
    (hyd : yd = daysBefore (month - 1)
      + (if (leap && decide (month ≥ 3)) = true then 1 else 0) + (day - 1)) :
    (0 ≤ yd ∧ (yd ≤ 364 ∨ (yd = 365 ∧ leap = true))) ∧
    (if (leap && decide (yd = 31 + 29 - 1)) = true then (year, 2, 29)
        else
          if (if (leap && decide (yd > 31 + 29 - 1)) = true then yd - 1 else yd)
              ≥ daysBefore ((if (leap && decide (yd > 31 + 29 - 1)) = true
                then yd - 1 else yd) / 31 + 1) then
            (year,
              (if (leap && decide (yd > 31 + 29 - 1)) = true then yd - 1 else yd) / 31
                + 1 + 1,
              (if (leap && decide (yd > 31 + 29 - 1)) = true then yd - 1 else yd)
              - daysBefore ((if (leap && decide (yd > 31 + 29 - 1)) = true
                then yd - 1 else yd) / 31 + 1) + 1)
          else
            (year,
              (if (leap && decide (yd > 31 + 29 - 1)) = true then yd - 1 else yd) / 31
                + 1,
              (if (leap && decide (yd > 31 + 29 - 1)) = true then yd - 1 else yd)
              - daysBefore ((if (leap && decide (yd > 31 + 29 - 1)) = true
                then yd - 1 else yd) / 31) + 1)) = (year, month, day) := by
  obtain ⟨d0, d1, d2, d3, d4, d5, d6, d7, d8, d9, d10, d11, d12⟩ := daysBefore_lit
  obtain ⟨adj, hadj⟩ : ∃ adj, adj = (if (leap && decide (yd > 31 + 29 - 1)) = true
      then yd - 1 else yd) := ⟨_, rfl⟩
  rw [← hadj]
  obtain ⟨q, hq⟩ : ∃ q, q = adj / 31 := ⟨_, rfl⟩
  rw [← hq]
  have h : month = 1 ∨ month = 2 ∨ month = 3 ∨ month = 4 ∨ month = 5 ∨ month = 6 ∨ month = 7
      ∨ month = 8 ∨ month = 9 ∨ month = 10 ∨ month = 11 ∨ month = 12 := by omega
  rcases h with h | h | h | h | h | h | h | h | h | h | h | h <;> subst h <;> cases leap <;>
    simp [d0, d1, d2, d3, d4, d5, d6, d7, d8, d9, d10, d11, d12] at hd1 hyd hadj ⊢ <;>
    (try split_ifs at hadj) <;>
    (have hqv : q = 0 ∨ q = 1 ∨ q = 2 ∨ q = 3 ∨ q = 4 ∨ q = 5 ∨ q = 6 ∨ q = 7 ∨ q = 8 ∨ q = 9
        ∨ q = 10 ∨ q = 11 := by omega) <;>
    rcases hqv with hqv | hqv | hqv | hqv | hqv | hqv | hqv | hqv | hqv | hqv | hqv | hqv <;>
    first
    | omega
    | (refine ⟨by omega, ?_⟩
       rw [hqv]
       simp only [Int.reduceAdd, d0, d1, d2, d3, d4, d5, d6, d7, d8, d9, d10, d11, d12]
       split_ifs <;> first | omega | (simp only [Prod.mk.injEq, true_and]; omega))
theorem daysIn_le (m year : Int) (h0 : 1 ≤ m) (h1 : m ≤ 12) : daysIn m year ≤ 31 := by
  obtain ⟨d0, d1, d2, d3, d4, d5, d6, d7, d8, d9, d10, d11, d12⟩ := daysBefore_lit
  have h : m = 1 ∨ m = 2 ∨ m = 3 ∨ m = 4 ∨ m = 5 ∨ m = 6 ∨ m = 7 ∨ m = 8 ∨ m = 9 ∨ m = 10
      ∨ m = 11 ∨ m = 12 := by omega
  unfold daysIn
  rcases h with h | h | h | h | h | h | h | h | h | h | h | h <;> subst h <;>
    cases isLeap year <;> simp [d0, d1, d2, d3, d4, d5, d6, d7, d8, d9, d10, d11, d12]

theorem Date_fields (year month day hour min sec nsec : Int)
    (hy0 : 0 ≤ year) (hy1 : year ≤ 9999) (hm0 : 1 ≤ month) (hm1 : month ≤ 12)
    (hd0 : 1 ≤ day) (hd1 : day ≤ daysIn month year)
    (hh0 : 0 ≤ hour) (hh1 : hour < 24) (hi0 : 0 ≤ min) (hi1 : min < 60)
    (hs0 : 0 ≤ sec) (hs1 : sec < 60) (hn0 : 0 ≤ nsec) (hn1 : nsec < 1000000000) :
    (Date year month day hour min sec nsec).Year = year ∧
    (Date year month day hour min sec nsec).Month = month ∧
    (Date year month day hour min sec nsec).Day = day ∧
    (Date year month day hour min sec nsec).Hour = hour ∧
    (Date year month day hour min sec nsec).Minute = min ∧
    (Date year month day hour min sec nsec).Second = sec ∧
    (Date year month day hour min sec nsec).Nanosecond = nsec := by
  have hd31 : day ≤ 31 := le_trans hd1 (daysIn_le month year hm0 hm1)
  rw [Date_eq year month day hour min sec nsec hy0 hy1 hm0 hm1 hd0 hd31 hh0 hh1 hi0 hi1
    hs0 hs1 hn0 hn1]
  obtain ⟨yd, hyd⟩ : ∃ yd, yd = daysBefore (month - 1)
      + (if (isLeap year && decide (month ≥ 3)) = true then 1 else 0) + (day - 1) := ⟨_, rfl⟩
  have hd1b : day ≤ (if (decide (month = 2) && isLeap year) = true then 29
      else daysBefore month - daysBefore (month - 1)) := hd1
  obtain ⟨⟨hyd0, hyd1⟩, htail⟩ := yday_tail year month day (isLeap year) hm0 hm1 hd0 hd1b yd hyd
  have hA : (daysSinceEpoch year + daysBefore (month - 1)
        + (if (isLeap year && decide (month ≥ 3)) = true then 1 else 0) + (day - 1)) * 86400
        + (hour * 3600 + min * 60 + sec)
      = (daysSinceEpoch year + yd) * 86400 + (hour * 3600 + min * 60 + sec) := by
    rw [hyd]; omega
  rw [hA]
  obtain ⟨hE0, hE1⟩ := daysSinceEpoch_bounds year hy0 hy1
  have hyd365 : yd ≤ 365 := by omega
  have habs : (unixTime (i64 (i64 ((daysSinceEpoch year + yd) * 86400
        + (hour * 3600 + min * 60 + sec)) + (absoluteToInternal + internalToUnix))) nsec).abs
      = (daysSinceEpoch year + yd) * 86400 + (hour * 3600 + min * 60 + sec) :=
    abs_roundtrip _ nsec (by omega) (by omega)
  have hdate := absDate_year_part year yd (hour * 3600 + min * 60 + sec) hy0 hy1 hyd0 hyd1
    (by omega) (by omega)
  rw [htail] at hdate
  simp only [Time.Year, Time.Month, Time.Day, Time.Hour, Time.Minute, Time.Second,
    Time.Nanosecond, habs, hdate]
  refine ⟨trivial, trivial, trivial, ?_, ?_, ?_, ?_⟩
  · omega
  · omega
  · omega
  · rfl

/-! ## Theorems: `time.Parse` with the layout of `DateTime` -/

theorem isDigitChar_iff (c : Char) : isDigitChar c = true ↔ 48 ≤ c.toNat ∧ c.toNat ≤ 57 := by
  simp [isDigitChar]

theorem digitVal_le (c : Char) (h : isDigitChar c = true) : digitVal c ≤ 9 := by
  rw [isDigitChar_iff] at h
  unfold digitVal
  omega

theorem isDigitChar_ne_sign (c : Char) (h : isDigitChar c = true) : c ≠ '-' ∧ c ≠ '+' := by
  rw [isDigitChar_iff] at h
  constructor
  · rintro rfl
    revert h
    decide
  · rintro rfl
    revert h
    decide

theorem decimalValue_two (a b : Char) : decimalValue [a, b] = digitVal a * 10 + digitVal b := by
  simp [decimalValue]
  omega

theorem decimalValue_four (a b c d : Char) :
    decimalValue [a, b, c, d]
      = digitVal a * 1000 + digitVal b * 100 + digitVal c * 10 + digitVal d := by
  simp [decimalValue]
  omega

theorem atoi_four (y1 y2 y3 y4 : Char) (h1 : isDigitChar y1 = true) :
    atoi [y1, y2, y3, y4]
      = if isDigitChar y2 = true ∧ isDigitChar y3 = true ∧ isDigitChar y4 = true then
          some ((decimalValue [y1, y2, y3, y4] : Nat) : Int)
        else none := by
  obtain ⟨hm, hp⟩ := isDigitChar_ne_sign y1 h1
  unfold atoi
  simp only [List.isEmpty_cons, Bool.not_false, List.getD_cons_zero, hm, hp, decide_False,
    Bool.or_self, Bool.and_false, Bool.false_eq_true, if_false]
  by_cases h2 : isDigitChar y2 = true
  · by_cases h3 : isDigitChar y3 = true
    · by_cases h4 : isDigitChar y4 = true
      · have hv := decimalValue_four y1 y2 y3 y4
        have b1 := digitVal_le y1 h1
        have b2 := digitVal_le y2 h2
        have b3 := digitVal_le y3 h3
        have b4 := digitVal_le y4 h4
        have hq : ¬ decimalValue [y1, y2, y3, y4] > 9223372036854775808 := by omega
        simp [List.takeWhile, List.dropWhile, h1, h2, h3, h4, hq]
        exact i64_id _ (by omega) (by omega)
      · simp [List.takeWhile, List.dropWhile, h1, h2, h3, h4]
    · simp [List.takeWhile, List.dropWhile, h1, h2, h3]
  · simp [List.takeWhile, List.dropWhile, h1, h2]
theorem getnum_nil (fixed : Bool) : getnum [] fixed = none := by
  simp [getnum, isDigit]

theorem getnum_single (c0 : Char) (fixed : Bool) :
    getnum [c0] fixed
      = if isDigitChar c0 = true then (if fixed = true then none else some ((digitVal c0 : Int), []))
        else none := by
  by_cases h0 : isDigitChar c0 = true <;> cases fixed <;> simp [getnum, isDigit, h0]

theorem getnum_cons2 (c0 c1 : Char) (r : List Char) (fixed : Bool) :
    getnum (c0 :: c1 :: r) fixed
      = if isDigitChar c0 = true then
          (if isDigitChar c1 = true then
            some ((digitVal c0 : Int) * 10 + (digitVal c1 : Int), r)
          else if fixed = true then none else some ((digitVal c0 : Int), c1 :: r))
        else none := by
  by_cases h0 : isDigitChar c0 = true <;> by_cases h1 : isDigitChar c1 = true <;>
    cases fixed <;> simp [getnum, isDigit, h0, h1]

theorem getnum_fixed_inv (s r : List Char) (n : Int) (h : getnum s true = some (n, r)) :
    ∃ c0 c1, s = c0 :: c1 :: r ∧ isDigitChar c0 = true ∧ isDigitChar c1 = true ∧
      n = ((decimalValue [c0, c1] : Nat) : Int) := by
  rcases s with _ | ⟨c0, _ | ⟨c1, r1⟩⟩
  · simp [getnum_nil] at h
  · rw [getnum_single] at h
    simp at h
  · rw [getnum_cons2] at h
    by_cases h0 : isDigitChar c0 = true
    · by_cases h1 : isDigitChar c1 = true
      · simp only [h0, h1, if_true, Option.some.injEq, Prod.mk.injEq] at h
        refine ⟨c0, c1, by rw [h.2], h0, h1, ?_⟩
        rw [decimalValue_two, ← h.1]
        push_cast
        rfl
      · simp [h0, h1] at h
    · simp [h0] at h

theorem getnum_free_inv (s r : List Char) (n : Int) (h : getnum s false = some (n, r)) :
    ∃ hh, s = hh ++ r ∧ (hh.length = 1 ∨ hh.length = 2) ∧ (∀ c ∈ hh, isDigitChar c = true) ∧
      n = ((decimalValue hh : Nat) : Int) := by
  rcases s with _ | ⟨c0, _ | ⟨c1, r1⟩⟩
  · simp [getnum_nil] at h
  · rw [getnum_single] at h
    split_ifs at h with h0
    simp only [Bool.false_eq_true, if_false, Option.some.injEq, Prod.mk.injEq] at h
    refine ⟨[c0], by simp [← h.2], Or.inl rfl, by simpa using h0, ?_⟩
    rw [← h.1]
    simp [decimalValue]
  · rw [getnum_cons2] at h
    split_ifs at h with h0 h1
    · simp only [Option.some.injEq, Prod.mk.injEq] at h
      refine ⟨[c0, c1], by simp [← h.2], Or.inr rfl, by simp [h0, h1], ?_⟩
      rw [decimalValue_two, ← h.1]
      push_cast
      rfl
    · simp only [Bool.false_eq_true, if_false, Option.some.injEq, Prod.mk.injEq] at h
      refine ⟨[c0], by simp [← h.2], Or.inl rfl, by simpa using h0, ?_⟩
      rw [← h.1]
      simp [decimalValue]

theorem skip_nil (value : List Char) : skip value [] = some value := by
  simp [skip, skipLoop]

theorem skip_char (p : Char) (hp : p ≠ ' ') (value : List Char) :
    skip value [p] = match value with
      | [] => none
      | v :: r => if v = p then some r else none := by
  rcases value with _ | ⟨v, r⟩
  · simp [skip, skipLoop, hp]
  · by_cases hv : v = p
    · cases r <;> simp [skip, skipLoop, hp, hv]
    · simp [skip, skipLoop, hp, hv]

theorem skip_space (value : List Char) :
    skip value [' '] = match value with
      | [] => some []
      | v :: r => if v = ' ' then some (cutspace r) else none := by
  rcases value with _ | ⟨v, r⟩
  · simp [skip, skipLoop, cutspace]
  · by_cases hv : v = ' '
    · simp [skip, skipLoop, hv, cutspace]
    · simp [skip, skipLoop, hv]

theorem cutspace_split (r : List Char) :
    ∃ sp, r = sp ++ cutspace r ∧ ∀ c ∈ sp, c = ' ' := by
  refine ⟨r.takeWhile (fun c => decide (c = ' ')), ?_, ?_⟩
  · unfold cutspace
    exact (List.takeWhile_append_dropWhile _ r).symm
  · intro c hc
    have := List.mem_takeWhile_imp hc
    simpa using this
theorem parseElement_year_inv (f f1 : Fields) (v r : List Char)
    (h : parseElement Std.stdLongYear f v = Except.ok (f1, r)) :
    ∃ y1 y2 y3 y4, v = y1 :: y2 :: y3 :: y4 :: r ∧
      isDigitChar y1 = true ∧ isDigitChar y2 = true ∧ isDigitChar y3 = true ∧
      isDigitChar y4 = true ∧
      f1 = { f with year := ((decimalValue [y1, y2, y3, y4] : Nat) : Int) } := by
  rcases v with _ | ⟨y1, _ | ⟨y2, _ | ⟨y3, _ | ⟨y4, r1⟩⟩⟩⟩
  · simp [parseElement] at h
  · simp [parseElement] at h
  · simp [parseElement] at h
  · simp [parseElement] at h
  · have hlen : ¬ (r1.length + 1 + 1 + 1 + 1 < 4) := by omega
    by_cases h1 : isDigitChar y1 = true
    · by_cases h234 : isDigitChar y2 = true ∧ isDigitChar y3 = true ∧ isDigitChar y4 = true
      · simp [parseElement, isDigit, h1, atoi_four, h234, hlen] at h
        exact ⟨y1, y2, y3, y4, by rw [h.2], h1, h234.1, h234.2.1, h234.2.2, h.1.symm⟩
      · simp [parseElement, isDigit, h1, atoi_four, h234] at h
    · simp [parseElement, isDigit, h1] at h

theorem parseElement_month_inv (f f1 : Fields) (v r : List Char)
    (h : parseElement Std.stdZeroMonth f v = Except.ok (f1, r)) :
    ∃ m1 m2, v = m1 :: m2 :: r ∧ isDigitChar m1 = true ∧ isDigitChar m2 = true ∧
      1 ≤ decimalValue [m1, m2] ∧ decimalValue [m1, m2] ≤ 12 ∧
      f1 = { f with month := ((decimalValue [m1, m2] : Nat) : Int) } := by
  simp only [parseElement] at h
  cases hg : getnum v true with
  | none => simp [hg] at h
  | some p =>
      obtain ⟨n, r1⟩ := p
      obtain ⟨m1, m2, hv, hm1, hm2, hn⟩ := getnum_fixed_inv v r1 n hg
      simp only [hg] at h
      by_cases hr : (decide (n ≤ 0) || decide (12 < n)) = true
      · simp [hr] at h
      · simp only [hr, Bool.false_eq_true, if_false, Except.ok.injEq, Prod.mk.injEq] at h
        simp only [Bool.or_eq_true, decide_eq_true_eq, not_or, not_le, not_lt] at hr
        refine ⟨m1, m2, by rw [hv, h.2], hm1, hm2, by omega, by omega, ?_⟩
        rw [← h.1, hn]

theorem parseElement_day_inv (f f1 : Fields) (v r : List Char)
    (h : parseElement Std.stdZeroDay f v = Except.ok (f1, r)) :
    ∃ d1 d2, v = d1 :: d2 :: r ∧ isDigitChar d1 = true ∧ isDigitChar d2 = true ∧
      f1 = { f with day := ((decimalValue [d1, d2] : Nat) : Int) } := by
  simp only [parseElement] at h
  cases hg : getnum v true with
  | none => simp [hg] at h
  | some p =>
      obtain ⟨n, r1⟩ := p
      obtain ⟨d1, d2, hv, hd1, hd2, hn⟩ := getnum_fixed_inv v r1 n hg
      simp only [hg, Except.ok.injEq, Prod.mk.injEq] at h
      refine ⟨d1, d2, by rw [hv, h.2], hd1, hd2, ?_⟩
      rw [← h.1, hn]

theorem parseElement_hour_inv (f f1 : Fields) (v r : List Char)
    (h : parseElement Std.stdHour f v = Except.ok (f1, r)) :
    ∃ hh, v = hh ++ r ∧ (hh.length = 1 ∨ hh.length = 2) ∧
      (∀ c ∈ hh, isDigitChar c = true) ∧ decimalValue hh ≤ 23 ∧
      f1 = { f with hour := ((decimalValue hh : Nat) : Int) } := by
  simp only [parseElement] at h
  cases hg : getnum v false with
  | none => simp [hg] at h
  | some p =>
      obtain ⟨n, r1⟩ := p
      obtain ⟨hh, hv, hlen, hdig, hn⟩ := getnum_free_inv v r1 n hg
      simp only [hg] at h
      by_cases hr : (decide (n < 0) || decide (24 ≤ n)) = true
      · simp [hr] at h
      · simp only [hr, Bool.false_eq_true, if_false, Except.ok.injEq, Prod.mk.injEq] at h
        simp only [Bool.or_eq_true, decide_eq_true_eq, not_or, not_le, not_lt] at hr
        refine ⟨hh, by rw [hv, h.2], hlen, hdig, by omega, ?_⟩
        rw [← h.1, hn]

theorem parseElement_minute_inv (f f1 : Fields) (v r : List Char)
    (h : parseElement Std.stdZeroMinute f v = Except.ok (f1, r)) :
    ∃ n1 n2, v = n1 :: n2 :: r ∧ isDigitChar n1 = true ∧ isDigitChar n2 = true ∧
      decimalValue [n1, n2] ≤ 59 ∧
      f1 = { f with min := ((decimalValue [n1, n2] : Nat) : Int) } := by
  simp only [parseElement] at h
  cases hg : getnum v true with
  | none => simp [hg] at h
  | some p =>
      obtain ⟨n, r1⟩ := p
      obtain ⟨n1, n2, hv, hn1, hn2, hn⟩ := getnum_fixed_inv v r1 n hg
      simp only [hg] at h
      by_cases hr : (decide (n < 0) || decide (60 ≤ n)) = true
      · simp [hr] at h
      · simp only [hr, Bool.false_eq_true, if_false, Except.ok.injEq, Prod.mk.injEq] at h
        simp only [Bool.or_eq_true, decide_eq_true_eq, not_or, not_le, not_lt] at hr
        refine ⟨n1, n2, by rw [hv, h.2], hn1, hn2, by omega, ?_⟩
        rw [← h.1, hn]
theorem drop_takeWhile_length (p : Char → Bool) (l : List Char) :
    l.drop (l.takeWhile p).length = l.dropWhile p := by
  induction l with
  | nil => simp
  | cons a l ih =>
      by_cases ha : p a = true
      · simp [List.takeWhile_cons, List.dropWhile_cons, ha, ih]
      · simp [List.takeWhile_cons, List.dropWhile_cons, ha]

theorem parseElement_second_inv (f f1 : Fields) (v : List Char)
    (h : parseElement Std.stdZeroSecond f v = Except.ok (f1, [])) :
    ∃ s1 s2 frac, v = s1 :: s2 :: frac ∧ isDigitChar s1 = true ∧ isDigitChar s2 = true ∧
      decimalValue [s1, s2] ≤ 59 ∧
      (frac = [] ∨ ∃ c ds, frac = c :: ds ∧ (c = '.' ∨ c = ',') ∧ ds ≠ [] ∧
        ∀ d ∈ ds, isDigitChar d = true) ∧
      f1.year = f.year ∧ f1.month = f.month ∧ f1.day = f.day ∧ f1.hour = f.hour ∧
      f1.min = f.min ∧ f1.sec = ((decimalValue [s1, s2] : Nat) : Int) := by
  simp only [parseElement] at h
  cases hg : getnum v true with
  | none => simp [hg] at h
  | some p =>
      obtain ⟨n, r1⟩ := p
      obtain ⟨s1, s2, hv, hs1, hs2, hn⟩ := getnum_fixed_inv v r1 n hg
      simp only [hg] at h
      by_cases hr : (decide (n < 0) || decide (60 ≤ n)) = true
      · simp [hr] at h
      · simp only [hr, Bool.false_eq_true, if_false] at h
        simp only [Bool.or_eq_true, decide_eq_true_eq, not_or, not_le, not_lt] at hr
        by_cases hfrac : (decide (r1.length ≥ 2) && commaOrPeriod (r1.getD 0 ' ')
            && isDigit r1 1) = true
        · simp only [hfrac, if_true] at h
          cases hp : parseNanoseconds r1 (2 + (List.takeWhile isDigitChar (r1.drop 2)).length) with
          | error e => simp [hp] at h
          | ok nsec =>
              simp only [hp, Except.ok.injEq, Prod.mk.injEq] at h
              rcases r1 with _ | ⟨c, _ | ⟨d, rest⟩⟩
              · simp at hfrac
              · simp at hfrac
              · simp only [List.length_cons, ge_iff_le, List.getD_cons_zero, isDigit,
                  Bool.and_eq_true, decide_eq_true_eq] at hfrac
                obtain ⟨⟨-, hc⟩, hd⟩ := hfrac
                have hd2 : isDigitChar d = true := by simpa using hd
                have hdrop : rest.dropWhile isDigitChar = [] := by
                  have h2 := h.2
                  simp only [List.drop_succ_cons, List.drop_zero] at h2
                  rw [Nat.add_comm] at h2
                  simp only [List.drop_succ_cons, List.drop_zero] at h2
                  rw [← drop_takeWhile_length]
                  exact h2
                have hall : ∀ x ∈ rest, isDigitChar x = true :=
                  List.dropWhile_eq_nil_iff.mp hdrop
                refine ⟨s1, s2, c :: d :: rest, hv, hs1, hs2, by omega, Or.inr ?_, ?_⟩
                · refine ⟨c, d :: rest, rfl, ?_, by simp, ?_⟩
                  · simpa [commaOrPeriod] using hc
                  · intro x hx
                    rcases List.mem_cons.mp hx with rfl | hx
                    · exact hd2
                    · exact hall x hx
                · rw [← h.1]
                  simp [hn]
        · simp only [hfrac, Bool.false_eq_true, if_false, Except.ok.injEq, Prod.mk.injEq] at h
          refine ⟨s1, s2, [], by rw [hv, h.2], hs1, hs2, by omega, Or.inl rfl, ?_⟩
          rw [← h.1]
          simp [hn]

theorem parseChunks_cons_ok (pre : List Char) (std : Std) (rest : List (List Char × Std))
    (f f2 : Fields) (value : List Char)
    (h : parseChunks ((pre, std) :: rest) f value = Except.ok f2) :
    ∃ v1 f1 v2, skip value pre = some v1 ∧ parseElement std f v1 = Except.ok (f1, v2) ∧
      parseChunks rest f1 v2 = Except.ok f2 := by
  simp only [parseChunks] at h
  cases hs : skip value pre with
  | none => simp [hs] at h
  | some v1 =>
      simp only [hs] at h
      cases he : parseElement std f v1 with
      | error e => simp [he] at h
      | ok p =>
          obtain ⟨f1, v2⟩ := p
          simp only [he] at h
          exact ⟨v1, f1, v2, rfl, he, h⟩

theorem parseChunks_nil_ok (f f2 : Fields) (value : List Char)
    (h : parseChunks [] f value = Except.ok f2) : value = [] ∧ f2 = f := by
  simp only [parseChunks] at h
  rcases value with _ | ⟨c, r⟩
  · simp at h
    exact ⟨rfl, h.symm⟩
  · simp at h

theorem skip_char_inv (p : Char) (hp : p ≠ ' ') (value v1 : List Char)
    (h : skip value [p] = some v1) : value = p :: v1 := by
  rw [skip_char p hp] at h
  rcases value with _ | ⟨v, r⟩
  · simp at h
  · by_cases hv : v = p
    · simp [hv] at h
      rw [hv, h]
    · simp [hv] at h
theorem daysIn_eq_calendarDays (y m : Nat) (h1 : 1 ≤ m) (h12 : m ≤ 12) :
    daysIn (m : Int) (y : Int) = (calendarDays y m : Int) := by
  obtain ⟨d0, d1, d2, d3, d4, d5, d6, d7, d8, d9, d10, d11, d12⟩ := daysBefore_lit
  have hleap : isLeap (y : Int) = true ↔ (y % 4 = 0 ∧ (y % 100 ≠ 0 ∨ y % 400 = 0)) := by
    rw [isLeap_iff]
    omega
  unfold daysIn calendarDays
  by_cases hl : (y % 4 = 0 ∧ (y % 100 ≠ 0 ∨ y % 400 = 0))
  · have hl2 : isLeap (y : Int) = true := hleap.mpr hl
    interval_cases m <;>
      simp [hl, hl2, d0, d1, d2, d3, d4, d5, d6, d7, d8, d9, d10, d11, d12]
  · have hl2 : isLeap (y : Int) = false := by
      cases h : isLeap (y : Int)
      · rfl
      · exact absurd (hleap.mp h) hl
    interval_cases m <;>
      simp [hl, hl2, d0, d1, d2, d3, d4, d5, d6, d7, d8, d9, d10, d11, d12]

theorem Parse_inv (s : List Char) (t : Time) (h : Parse s = Except.ok t) : IsLayoutValue s := by
  unfold Parse at h
  cases hc : parseChunks layoutChunks ⟨0, -1, -1, 0, 0, 0, 0⟩ s with
  | error e => simp [hc] at h
  | ok f =>
      simp only [hc] at h
      unfold layoutChunks at hc
      obtain ⟨v1, f1, r1, hk1, he1, hc1⟩ := parseChunks_cons_ok _ _ _ _ _ _ hc
      obtain ⟨v2, f2, r2, hk2, he2, hc2⟩ := parseChunks_cons_ok _ _ _ _ _ _ hc1
      obtain ⟨v3, f3, r3, hk3, he3, hc3⟩ := parseChunks_cons_ok _ _ _ _ _ _ hc2
      obtain ⟨v4, f4, r4, hk4, he4, hc4⟩ := parseChunks_cons_ok _ _ _ _ _ _ hc3
      obtain ⟨v5, f5, r5, hk5, he5, hc5⟩ := parseChunks_cons_ok _ _ _ _ _ _ hc4
      obtain ⟨v6, f6, r6, hk6, he6, hc6⟩ := parseChunks_cons_ok _ _ _ _ _ _ hc5
      obtain ⟨hr6, hf⟩ := parseChunks_nil_ok _ _ _ hc6
      subst hr6
      rw [skip_nil] at hk1
      have hv1 : v1 = s := by simpa using hk1.symm
      subst hv1
      obtain ⟨y1, y2, y3, y4, hs1, hy1, hy2, hy3, hy4, hf1⟩ := parseElement_year_inv _ _ _ _ he1
      have hr1 := skip_char_inv '-' (by decide) _ _ hk2
      obtain ⟨m1, m2, hs2, hm1, hm2, hmlo, hmhi, hf2⟩ := parseElement_month_inv _ _ _ _ he2
      have hr2 := skip_char_inv '-' (by decide) _ _ hk3
      obtain ⟨d1, d2, hs3, hd1, hd2, hf3⟩ := parseElement_day_inv _ _ _ _ he3
      obtain ⟨hh, hs4, hhlen, hhdig, hhhi, hf4⟩ := parseElement_hour_inv _ _ _ _ he4
      have hr4 := skip_char_inv ':' (by decide) _ _ hk5
      obtain ⟨n1, n2, hs5, hn1, hn2, hnhi, hf5⟩ := parseElement_minute_inv _ _ _ _ he5
      have hr5 := skip_char_inv ':' (by decide) _ _ hk6
      obtain ⟨s1, s2, frac, hs6, hsd1, hsd2, hshi, hfrac, e1, e2, e3, e4, e5, e6⟩ :=
        parseElement_second_inv _ _ _ he6
      -- the space of the layout
      rw [skip_space] at hk4
      have hv4ne : v4 ≠ [] := by
        intro hnil
        rw [hnil] at hs4
        have hhnil : hh = [] := (List.append_eq_nil.mp hs4.symm).1
        rw [hhnil] at hhlen
        simp at hhlen
      obtain ⟨sp, hsp, hspall⟩ : ∃ sp, r3 = ' ' :: sp ++ v4 ∧ ∀ c ∈ sp, c = ' ' := by
        rcases r3 with _ | ⟨c, r3'⟩
        · simp at hk4
          exact absurd hk4 hv4ne
        · by_cases hcs : c = ' '
          · simp [hcs] at hk4
            obtain ⟨sp, hsp, hall⟩ := cutspace_split r3'
            refine ⟨sp, ?_, hall⟩
            rw [hcs, hsp, hk4]
            simp
          · simp [hcs] at hk4
      -- the values of the fields
      have hyear : f.year = ((decimalValue [y1, y2, y3, y4] : Nat) : Int) := by
        rw [hf, e1, hf5, hf4, hf3, hf2, hf1]
      have hmonth : f.month = ((decimalValue [m1, m2] : Nat) : Int) := by
        rw [hf, e2, hf5, hf4, hf3, hf2]
      have hday : f.day = ((decimalValue [d1, d2] : Nat) : Int) := by
        rw [hf, e3, hf5, hf4, hf3]
      -- the day of the month
      have hmnn : ¬ f.month < 0 := by rw [hmonth]; omega
      have hdnn : ¬ f.day < 0 := by rw [hday]; omega
      simp only [hmnn, hdnn, if_false] at h
      by_cases hdr : (decide (f.day < 1) || decide (f.day > daysIn f.month f.year)) = true
      · simp [hdr] at h
      · simp only [Bool.or_eq_true, decide_eq_true_eq, not_or, not_le, not_lt] at hdr
        rw [hyear, hmonth, hday, daysIn_eq_calendarDays _ _ hmlo hmhi] at hdr
        refine ⟨y1, y2, y3, y4, m1, m2, d1, d2, sp, hh, n1, n2, s1, s2, frac, ?_, ?_, hspall,
          hhlen, hhdig, hfrac, ?_⟩
        · rw [hs1, hr1, hs2, hr2, hs3, hsp, hs4, hr4, hs5, hr5, hs6]
          simp
        · intro c hc
          simp only [List.mem_cons, List.mem_singleton, List.not_mem_nil, or_false] at hc
          rcases hc with h | h | h | h | h | h | h | h | h | h | h | h <;> rw [h] <;> assumption
        · exact ⟨hmlo, hmhi, by omega, by omega, hhhi, hnhi, hshi⟩
theorem isDigitChar_ne_space (c : Char) (h : isDigitChar c = true) : c ≠ ' ' := by
  rw [isDigitChar_iff] at h
  rintro rfl
  revert h
  decide

theorem parseChunks_strict (y1 y2 y3 y4 m1 m2 d1 d2 h1 h2 n1 n2 s1 s2 : Char)
    (hd : ∀ c ∈ [y1, y2, y3, y4, m1, m2, d1, d2, h1, h2, n1, n2, s1, s2], isDigitChar c = true)
    (hm0 : 1 ≤ decimalValue [m1, m2]) (hm1 : decimalValue [m1, m2] ≤ 12)
    (hh : decimalValue [h1, h2] ≤ 23) (hn : decimalValue [n1, n2] ≤ 59)
    (hs : decimalValue [s1, s2] ≤ 59) :
    parseChunks layoutChunks ⟨0, -1, -1, 0, 0, 0, 0⟩
        [y1, y2, y3, y4, '-', m1, m2, '-', d1, d2, ' ', h1, h2, ':', n1, n2, ':', s1, s2]
      = Except.ok ⟨((decimalValue [y1, y2, y3, y4] : Nat) : Int),
          ((decimalValue [m1, m2] : Nat) : Int), ((decimalValue [d1, d2] : Nat) : Int),
          ((decimalValue [h1, h2] : Nat) : Int), ((decimalValue [n1, n2] : Nat) : Int),
          ((decimalValue [s1, s2] : Nat) : Int), 0⟩ := by
  simp only [List.mem_cons, List.mem_singleton, List.not_mem_nil, or_false, forall_eq_or_imp,
    forall_eq] at hd
  obtain ⟨gy1, gy2, gy3, gy4, gm1, gm2, gd1, gd2, gh1, gh2, gn1, gn2, gs1, gs2⟩ := hd
  have hsp := isDigitChar_ne_space h1 gh1
  rw [decimalValue_two] at hm0 hm1 hh hn hs
  have c1 : ¬ ((digitVal m1 : Int) * 10 + (digitVal m2 : Int) ≤ 0) := by omega
  have c2 : ¬ (12 < (digitVal m1 : Int) * 10 + (digitVal m2 : Int)) := by omega
  have c3 : ¬ ((digitVal h1 : Int) * 10 + (digitVal h2 : Int) < 0) := by omega
  have c4 : ¬ (24 ≤ (digitVal h1 : Int) * 10 + (digitVal h2 : Int)) := by omega
  have c5 : ¬ ((digitVal n1 : Int) * 10 + (digitVal n2 : Int) < 0) := by omega
  have c6 : ¬ (60 ≤ (digitVal n1 : Int) * 10 + (digitVal n2 : Int)) := by omega
  have c7 : ¬ ((digitVal s1 : Int) * 10 + (digitVal s2 : Int) < 0) := by omega
  have c8 : ¬ (60 ≤ (digitVal s1 : Int) * 10 + (digitVal s2 : Int)) := by omega
  simp [layoutChunks, parseChunks, skip_nil, skip_char, skip_space, cutspace, parseElement,
    getnum_cons2, atoi_four, isDigit, gy1, gy2, gy3, gy4, gm1, gm2, gd1, gd2, gh1, gh2, gn1,
    gn2, gs1, gs2, hsp, c1, c2, c3, c4, c5, c6, c7, c8, decimalValue_two]

theorem Parse_strict (y1 y2 y3 y4 m1 m2 d1 d2 h1 h2 n1 n2 s1 s2 : Char)
    (hd : ∀ c ∈ [y1, y2, y3, y4, m1, m2, d1, d2, h1, h2, n1, n2, s1, s2], isDigitChar c = true)
    (hv : ValidComponents (decimalValue [y1, y2, y3, y4]) (decimalValue [m1, m2])
      (decimalValue [d1, d2]) (decimalValue [h1, h2]) (decimalValue [n1, n2])
      (decimalValue [s1, s2])) :
    Parse [y1, y2, y3, y4, '-', m1, m2, '-', d1, d2, ' ', h1, h2, ':', n1, n2, ':', s1, s2]
      = Except.ok (Date ((decimalValue [y1, y2, y3, y4] : Nat) : Int)
          ((decimalValue [m1, m2] : Nat) : Int) ((decimalValue [d1, d2] : Nat) : Int)
          ((decimalValue [h1, h2] : Nat) : Int) ((decimalValue [n1, n2] : Nat) : Int)
          ((decimalValue [s1, s2] : Nat) : Int) 0) := by
  obtain ⟨hm0, hm1, hd0, hd1, hh, hn, hs⟩ := hv
  unfold Parse
  rw [parseChunks_strict y1 y2 y3 y4 m1 m2 d1 d2 h1 h2 n1 n2 s1 s2 hd hm0 hm1 hh hn hs]
  have a1 : ¬ (((decimalValue [m1, m2] : Nat) : Int) < 0) := by omega
  have a2 : ¬ (((decimalValue [d1, d2] : Nat) : Int) < 0) := by omega
  have a3 : ¬ (((decimalValue [d1, d2] : Nat) : Int) < 1) := by omega
  have a4 : ¬ (((decimalValue [d1, d2] : Nat) : Int)
      > daysIn ((decimalValue [m1, m2] : Nat) : Int) ((decimalValue [y1, y2, y3, y4] : Nat) : Int)) := by
    rw [daysIn_eq_calendarDays _ _ hm0 hm1]
    omega
  simp [a1, a2, a3, a4]

/-! ## Theorems: `DateTime.UnmarshalXML` -/

/-- C3 as stated fails: a value with a one-digit hour, a value with a fractional second and a
value with two spaces between date and time are all parsed without error, and none of them is
of the form `YYYY-MM-DD HH:MM:SS`. -/
theorem C3_counterexample_accepts_other_forms :
    ((DateTime.UnmarshalXML ⟨⟨0, 0⟩⟩ "2021-03-04 1:45:09").2 = none ∧
      ¬ IsStrictValue "2021-03-04 1:45:09".data) ∧
    ((DateTime.UnmarshalXML ⟨⟨0, 0⟩⟩ "2021-03-04 13:45:09.123").2 = none ∧
      ¬ IsStrictValue "2021-03-04 13:45:09.123".data) ∧
    ((DateTime.UnmarshalXML ⟨⟨0, 0⟩⟩ "2021-03-04  13:45:09").2 = none ∧
      ¬ IsStrictValue "2021-03-04  13:45:09".data) := by
  refine ⟨⟨by decide, ?_⟩, ⟨by decide, ?_⟩, ⟨by decide, ?_⟩⟩
  · rintro ⟨y1, y2, y3, y4, m1, m2, d1, d2, h1, h2, n1, n2, s1, s2, h, -⟩
    simp at h
  · rintro ⟨y1, y2, y3, y4, m1, m2, d1, d2, h1, h2, n1, n2, s1, s2, h, -⟩
    simp at h
  · rintro ⟨y1, y2, y3, y4, m1, m2, d1, d2, h1, h2, n1, n2, s1, s2, h, -⟩
    simp at h

/-- C3 amended: for every string `s`, the parse made by `DateTime.UnmarshalXML` succeeds only
if `s` is a four-digit year, `-`, a two-digit month, `-`, a two-digit day, one or more spaces,
an hour of one or two digits, `:`, a two-digit minute, `:`, a two-digit second, optionally
followed by a fractional second (a period or comma and one or more digits), with nothing
before or after and every component in range; for every other string it returns a parse error
and leaves the target as it was. The values `2021-03-04T13:45:09Z` and `03/04/2021 13:45:09`
are rejected. -/
theorem C3_parse_succeeds_only_on_layout_values (t0 : DateTime) (s : String) :
    ((DateTime.UnmarshalXML t0 s).2 = none → IsLayoutValue s.data) ∧
    (¬ IsLayoutValue s.data → ∃ err, DateTime.UnmarshalXML t0 s = (t0, some err)) ∧
    DateTime.UnmarshalXML t0 "2021-03-04T13:45:09Z" = (t0, some ParseError.bad) ∧
    DateTime.UnmarshalXML t0 "03/04/2021 13:45:09" = (t0, some ParseError.bad) := by
  have key : ∀ t, Parse s.data = Except.ok t → IsLayoutValue s.data :=
    fun t ht => Parse_inv s.data t ht
  refine ⟨?_, ?_, ?_, ?_⟩
  · intro h
    unfold DateTime.UnmarshalXML at h
    cases hp : Parse s.data with
    | error e => simp [hp] at h
    | ok t => exact key t hp
  · intro hns
    unfold DateTime.UnmarshalXML
    cases hp : Parse s.data with
    | error e => exact ⟨e, rfl⟩
    | ok t => exact absurd (key t hp) hns
  · have hp : Parse "2021-03-04T13:45:09Z".data = Except.error ParseError.bad := by rfl
    simp [DateTime.UnmarshalXML, hp]
  · have hp : Parse "03/04/2021 13:45:09".data = Except.error ParseError.bad := by rfl
    simp [DateTime.UnmarshalXML, hp]

theorem C3_parse_succeeds_only_on_layout_values_witness :
    IsLayoutValue "2021-03-04 1:45:09.5".data :=
  (C3_parse_succeeds_only_on_layout_values ⟨⟨0, 0⟩⟩ "2021-03-04 1:45:09.5").1 (by decide)

/-- C7: for every string of the form `YYYY-MM-DD HH:MM:SS` whose components denote a valid
calendar date and a time of the 24-hour clock, the parse made by `DateTime.UnmarshalXML`
succeeds, stores the parsed time in the target and returns no error, and the stored time has
exactly the year, month, day, hour, minute and second written in the string (read in UTC, so
without any shift) and no fraction of a second. -/
theorem C7_strict_value_parses_to_its_components
    (y1 y2 y3 y4 m1 m2 d1 d2 h1 h2 n1 n2 s1 s2 : Char)
    (hd : ∀ c ∈ [y1, y2, y3, y4, m1, m2, d1, d2, h1, h2, n1, n2, s1, s2], isDigitChar c = true)
    (hv : ValidComponents (decimalValue [y1, y2, y3, y4]) (decimalValue [m1, m2])
      (decimalValue [d1, d2]) (decimalValue [h1, h2]) (decimalValue [n1, n2])
      (decimalValue [s1, s2])) :
    ∃ t : Time,
      (∀ t0 : DateTime, DateTime.UnmarshalXML t0
          (String.mk [y1, y2, y3, y4, '-', m1, m2, '-', d1, d2, ' ', h1, h2, ':', n1, n2, ':',
            s1, s2]) = (⟨t⟩, none)) ∧
      t.Year = decimalValue [y1, y2, y3, y4] ∧ t.Month = decimalValue [m1, m2] ∧
      t.Day = decimalValue [d1, d2] ∧ t.Hour = decimalValue [h1, h2] ∧
      t.Minute = decimalValue [n1, n2] ∧ t.Second = decimalValue [s1, s2] ∧
      t.Nanosecond = 0 := by
  have hp := Parse_strict y1 y2 y3 y4 m1 m2 d1 d2 h1 h2 n1 n2 s1 s2 hd hv
  simp only [List.mem_cons, List.mem_singleton, List.not_mem_nil, or_false, forall_eq_or_imp,
    forall_eq] at hd
  obtain ⟨gy1, gy2, gy3, gy4, gm1, gm2, gd1, gd2, gh1, gh2, gn1, gn2, gs1, gs2⟩ := hd
  obtain ⟨hm0, hm1, hd0, hd1, hh, hn, hs⟩ := hv
  have by1 := digitVal_le y1 gy1
  have by2 := digitVal_le y2 gy2
  have by3 := digitVal_le y3 gy3
  have by4 := digitVal_le y4 gy4
  have hy := decimalValue_four y1 y2 y3 y4
  have hf := Date_fields ((decimalValue [y1, y2, y3, y4] : Nat) : Int)
    ((decimalValue [m1, m2] : Nat) : Int) ((decimalValue [d1, d2] : Nat) : Int)
    ((decimalValue [h1, h2] : Nat) : Int) ((decimalValue [n1, n2] : Nat) : Int)
    ((decimalValue [s1, s2] : Nat) : Int) 0
    (by omega) (by omega) (by omega) (by omega) (by omega)
    (by rw [daysIn_eq_calendarDays _ _ hm0 hm1]; omega)
    (by omega) (by omega) (by omega) (by omega) (by omega) (by omega) (by omega) (by omega)
  refine ⟨_, ?_, hf⟩
  intro t0
  simp [DateTime.UnmarshalXML, hp]

theorem C7_strict_value_parses_to_its_components_witness :
    ∃ t : Time,
      (∀ t0 : DateTime, DateTime.UnmarshalXML t0 "2021-03-04 13:45:09" = (⟨t⟩, none)) ∧
      t.Year = 2021 ∧ t.Month = 3 ∧ t.Day = 4 ∧ t.Hour = 13 ∧ t.Minute = 45 ∧ t.Second = 9 ∧
      t.Nanosecond = 0 :=
  C7_strict_value_parses_to_its_components '2' '0' '2' '1' '0' '3' '0' '4' '1' '3' '4' '5' '0' '9'
    (by decide) (by unfold ValidComponents; decide)

end Codereadr
